import Mathlib

set_option maxHeartbeats 1000000

/-!
Shallow embedding of the agentic-workflow-orchestrator core
(`src/app/domain/budget.py`, `src/app/nodes/router.py`,
`src/app/nodes/debate.py`, `src/app/orchestrator.py`) in Lean 4.

Python floats are modelled as rationals (`ℚ`), Python ints as `ℤ`/`ℕ`,
Python dicts as insertion-ordered association lists, and fallible calls
as `Except`.  External collaborators (worker invocation, judge,
verifier, planner) are parameters of the orchestration loop, exactly at
the interface boundary the code uses.
-/

/-- Embedding of `Budget` (src/app/domain/budget.py): remaining USD and an
optional latency deadline. -/
structure Budget where
  usd_left : ℚ
  deadline_s : Option ℚ
deriving Repr, DecidableEq

/-- Embedding of `Budget.allow` (budget.py lines 15-28): false when `usd_left < cost`,
or when a deadline is set and `deadline_s < latency`; true otherwise.
A pure predicate: it takes the budget as a value and returns only a Bool. -/
def Budget.allow (b : Budget) (cost latency : ℚ) : Bool :=
  if b.usd_left < cost then false
  else
    match b.deadline_s with
    | some d => if d < latency then false else true
    | none => true

/-- Embedding of `Budget.charge` (budget.py lines 30-36): unconditionally subtracts
`cost` from `usd_left`; no floor is enforced. -/
def Budget.charge (b : Budget) (cost : ℚ) : Budget :=
  { b with usd_left := b.usd_left - cost }

/-- Embedding of `ArmStat` (src/app/nodes/router.py lines 19-37).
The source calls the running means `winrate` and `cost`. -/
structure ArmStat where
  pulls : ℕ
  winrate : ℚ
  cost : ℚ
deriving Repr, DecidableEq

/-- Embedding of `ArmStat.update` (router.py lines 28-37): incremental-mean update. -/
def ArmStat.update (s : ArmStat) (reward cost : ℚ) : ArmStat :=
  let p : ℕ := s.pulls + 1
  { pulls := p
    winrate := s.winrate + (reward - s.winrate) / (p : ℚ)
    cost := s.cost + (cost - s.cost) / (p : ℚ) }

/-- The dataclass defaults of `ArmStat`: `pulls=0, winrate=0.0, cost=0.0`. -/
def ArmStat.init : ArmStat := ⟨0, 0, 0⟩

/-- Apply a sequence of `(reward, cost)` observations to an `ArmStat`,
one `update` per element, in order. -/
def applyUpdates (s : ArmStat) (us : List (ℚ × ℚ)) : ArmStat :=
  us.foldl (fun a u => a.update u.1 u.2) s

/-- Embedding of `ModelSpec` (src/app/adapter/adapter.py lines 7-20); the
`Skill` enum values are represented by their string values. -/
structure ModelSpec where
  name : String
  provider : String
  cost_per_1k_input : ℚ
  cost_per_1k_output : ℚ
  rpm_limit : Option ℤ
  tpm_limit : Option ℤ
  max_output_tokens : ℤ
  tier : ℤ
  skills : List String
deriving Repr, DecidableEq

/-- Model of Python's `random.Random` as used by the router: a deterministic
pseudo-random generator owned by value.  The exact Mersenne-Twister stream is
abstracted into a linear-congruential stream; what the embedding preserves is
that every draw is a pure function of the seeded state, so that identical
seeds give identical draw sequences. -/
structure PyRandom where
  state : ℕ
deriving Repr, DecidableEq

def rngModulus : ℕ := 2147483647

/-- One draw of `rng.random()`: returns a rational in `[0, 1)` and the
advanced generator. -/
def PyRandom.random (g : PyRandom) : ℚ × PyRandom :=
  let s2 := (16807 * g.state + 7) % rngModulus
  ((s2 : ℚ) / (rngModulus : ℚ), ⟨s2⟩)

/-- Embedding of `RouterCfg` (router.py lines 7-16). -/
structure RouterCfg where
  epsilon : ℚ
  alpha_cost : ℚ
deriving Repr, DecidableEq

/-- The dataclass defaults: `epsilon=0.05`, `alpha_cost=0.0`. -/
def RouterCfg.default : RouterCfg := ⟨1/20, 0⟩

/-- Embedding of `Router` (router.py lines 40-60): the adapter list models
the insertion-ordered `adapters` dict values, `stats` the per-name `ArmStat`
dict, and `rng` the instance-owned generator. -/
structure Router where
  adapters : List ModelSpec
  cfg : RouterCfg
  rng : PyRandom
  stats : List (String × ArmStat)
deriving Repr, DecidableEq

/-- Embedding of `Router.__init__` (router.py lines 44-60). -/
def Router.init (adapters : List ModelSpec) (cfg : RouterCfg) (seed : ℕ) : Router :=
  ⟨adapters, cfg, ⟨seed % rngModulus⟩, adapters.map (fun a => (a.name, ArmStat.init))⟩

/-- Embedding of `Router._score` (router.py lines 62-75) with the generator passed
explicitly: draw once to decide exploration; if exploring or the arm has
zero pulls, return a second fresh draw, else `winrate - alpha_cost * cost`.
The stats lookup models `self.stats[name]`; the default is irrelevant in all
orchestrated uses because `__init__` populates `stats` with exactly the
adapter names that are ever scored. -/
def Router.scoreWith (r : Router) (name : String) (g : PyRandom) : ℚ × PyRandom :=
  let s := (List.lookup name r.stats).getD ArmStat.init
  let d1 := g.random
  if d1.1 < r.cfg.epsilon ∨ s.pulls = 0 then d1.2.random
  else (s.winrate - r.cfg.alpha_cost * s.cost, d1.2)

/-- The per-element key evaluation performed by `sorted(cand, key=...)`:
scores are computed once per candidate, in list order, threading the
generator. -/
def Router.scoreList (r : Router) : List ModelSpec → PyRandom → List (ModelSpec × ℚ) × PyRandom
  | [], g => ([], g)
  | a :: rest, g =>
    let sc := r.scoreWith a.name g
    let tl := r.scoreList rest sc.2
    ((a, sc.1) :: tl.1, tl.2)

/-- Stable insertion used to model `sorted(..., reverse=True)`: an element
is placed before the first strictly-smaller score, so equal scores keep
their original relative order. -/
def insertDesc (x : ModelSpec × ℚ) : List (ModelSpec × ℚ) → List (ModelSpec × ℚ)
  | [] => [x]
  | y :: ys => if y.2 ≤ x.2 then x :: y :: ys else y :: insertDesc x ys

/-- Stable descending sort by score, modelling Python's stable
`sorted(cand, key=..., reverse=True)`. -/
def sortDesc : List (ModelSpec × ℚ) → List (ModelSpec × ℚ)
  | [] => []
  | x :: xs => insertDesc x (sortDesc xs)

/-- The filter predicate of `Router.pick_k` (router.py lines 87-92):
tier at least `tier_hint` when given, and the skill is empty, declared, or
the adapter is a generalist with no declared skills. -/
def stepFilter (skill : String) (tier_hint : Option ℤ) (a : ModelSpec) : Bool :=
  (match tier_hint with
   | none => true
   | some t => decide (t ≤ a.tier)) &&
  (skill == "" || a.skills.contains skill || a.skills.isEmpty)

/-- Embedding of `Router.pick_k` (router.py lines 77-96): filter, fall back to the full
adapter set when empty, score each candidate (advancing the instance rng),
stable-sort by score descending, return the top `max 1 k` names. -/
def Router.pick_k (r : Router) (skill : String) (k : ℤ) (tier_hint : Option ℤ) :
    List String × Router :=
  let cand0 := r.adapters.filter (stepFilter skill tier_hint)
  let cand := if cand0.isEmpty then r.adapters else cand0
  let scored := r.scoreList cand r.rng
  let sorted := sortDesc scored.1
  ((sorted.take (max 1 k).toNat).map (fun p => p.1.name), { r with rng := scored.2 })

/-- Embedding of `Router.update` (router.py lines 98-106): `self.stats[name].update(...)`;
`none` models the `KeyError` on an unknown name. -/
def Router.update (r : Router) (name : String) (reward cost : ℚ) : Option Router :=
  if (List.lookup name r.stats).isSome then
    some { r with
           stats := r.stats.map
             (fun p => if p.1 == name then (p.1, p.2.update reward cost) else p) }
  else none

/-- The sequence of externally visible router calls used for the
reproducibility property: either a `pick_k` selection or an `update`. -/
inductive RCall where
  | pick (skill : String) (k : ℤ) (tier_hint : Option ℤ)
  | upd (name : String) (reward cost : ℚ)

/-- Replay a sequence of calls against a router, collecting every `pick_k`
selection list and the final router state; `none` models an `update` on an
unknown worker name (a `KeyError` in the source). -/
def Router.runCalls (r : Router) : List RCall → Option (List (List String) × Router)
  | [] => some ([], r)
  | RCall.pick s k t :: rest =>
    let pk := r.pick_k s k t
    match pk.2.runCalls rest with
    | some (outs, rf) => some (pk.1 :: outs, rf)
    | none => none
  | RCall.upd n w c :: rest =>
    match r.update n w c with
    | some r1 => r1.runCalls rest
    | none => none

/-- Error kinds that abort an orchestrated run (§7 of the design): failures
of a worker invocation, of the judge, or of the verifier, plus the Python
runtime errors the loop itself can raise (`KeyError` on an unknown adapter
name, `ValueError` from `min`/`max` of an empty sequence, `IndexError` from
an invalid candidate index). -/
inductive OrchErr where
  | workerFailure (msg : String)
  | judgeFailure (msg : String)
  | verifierFailure (msg : String)
  | keyError (name : String)
  | valueError
  | indexError
deriving Repr, DecidableEq

/-- Open-ended metadata values attached to judge/verifier outcomes
(Python `dict[str, Any]` entries as used by the orchestrator). -/
inductive MetaVal where
  | str (s : String)
  | int (n : ℤ)
  | nested (m : List (String × MetaVal))
deriving Repr

/-- A metadata dict: insertion-ordered string-keyed entries. -/
abbrev Meta := List (String × MetaVal)

/-- Python dict update, as in the orchestrator's metadata merge: overwrite `k` in place when present, else
append it. -/
def dictSet (m : Meta) (k : String) (v : MetaVal) : Meta :=
  if (List.lookup k m).isSome then
    m.map (fun p => if p.1 == k then (p.1, v) else p)
  else m ++ [(k, v)]

/-- Embedding of `CallRequest` (adapter.py lines 22-32) restricted to the
fields the orchestrator sets; the remaining fields keep their defaults. -/
structure CallRequest where
  system : String
  user : String
  temperature : ℚ := 1/5
  max_tokens : Option ℤ := none
deriving Repr, DecidableEq

/-- Embedding of `CallResult` (adapter.py lines 34-45) restricted to the
fields the core reads. -/
structure CallResult where
  text : String
  tokens_in : ℤ
  tokens_out : ℤ
  latency_s : ℚ
  cost_usd : ℚ
deriving Repr, DecidableEq

/-- Embedding of `Candidate` (src/app/domain/candidate.py). -/
structure Candidate where
  model : String
  text : String
  latency_s : ℚ
  cost_usd : ℚ
  tokens_in : ℤ
  tokens_out : ℤ
deriving Repr, DecidableEq

/-- The candidate built by `Debate.run`'s inner `one(name)`
(debate.py lines 25-34). -/
def candOf (name : String) (r : CallResult) : Candidate :=
  ⟨name, r.text, r.latency_s, r.cost_usd, r.tokens_in, r.tokens_out⟩

/-- Embedding of `Debate.run` (debate.py lines 16-36): invoke every listed adapter on
the same request and return the candidates in the callers' order; the first
failure aborts the whole fan-out (`asyncio.gather` with no error isolation).
`invoke name req` stands for `self.adapters[name].acomplete(req)`. -/
def Debate.run (invoke : String → CallRequest → Except OrchErr CallResult)
    (names : List String) (req : CallRequest) : Except OrchErr (List Candidate) :=
  names.mapM (fun n => (invoke n req).map (candOf n))

/-- Concurrent-completion model of `asyncio.gather`: the independent task
results `jobs` are already determined (workers share no mutable state);
`sched` lists the slot indices in the order the tasks happen to complete,
and each completion stores its result into its own slot.  The gather
resolves once every slot is filled. -/
def asyncGather (jobs : List Candidate) (sched : List ℕ) : Option (List Candidate) :=
  let slots := sched.foldl (fun a j => a.set j (jobs.get? j))
    (List.replicate jobs.length (none : Option Candidate))
  if slots.all Option.isSome then some slots.reduceOption else none

/-- Worker invocation used by the C7 witness: succeeds for every name with
a text derived from the name. -/
def wInvoke : String → CallRequest → Except OrchErr CallResult :=
  fun n _ => Except.ok ⟨"ans-" ++ n, 3, 5, 1, 1/100⟩

/-- Expected per-slot results for the C7 witness. -/
def wRes : ℕ → CallResult :=
  fun i => ⟨"ans-" ++ (["X", "Y", "Z"].getD i ""), 3, 5, 1, 1/100⟩

/-- Embedding of `PlanStep` (src/app/nodes/planner.py lines 11-19). -/
structure PlanStep where
  skill : String
  description : String
  k_models : ℤ
  tier_hint : Option ℤ
  max_rounds : ℤ
deriving Repr, DecidableEq

/-- Embedding of `Plan` (planner.py lines 22-29). -/
structure Plan where
  steps : List PlanStep
  hard_budget_usd : ℚ
  hard_latency_s : Option ℚ
  seed : ℤ
deriving Repr, DecidableEq

/-- Embedding of `StepTrace` (src/app/utils/traces.py lines 5-16). -/
structure StepTrace where
  step_idx : ℕ
  skill : String
  chosen_models : List String
  candidates : List Candidate
  chosen_idx : ℤ
  judge_meta : Meta
  verified : Bool
  verifier_meta : Meta
deriving Repr

/-- Embedding of `RunTrace` (traces.py lines 18-26). -/
structure RunTrace where
  task : String
  final_text : String
  steps : List StepTrace
  total_cost_usd : ℚ
  total_latency_s : ℚ
deriving Repr

/-- The external collaborators consumed by `Orchestrator.run`
(orchestrator.py lines 23-47): the adapter specs by which tiers are looked
up, the worker-invocation capability, the judge, and the verifier. -/
structure Env where
  adapters : List ModelSpec
  invoke : String → CallRequest → Except OrchErr CallResult
  judgePick : String → List Candidate → Except OrchErr (ℤ × Meta)
  verify : String → String → Meta → Except OrchErr (Bool × Meta)

/-- Mutable state of the orchestration loop at a step boundary. -/
structure OrchState where
  budget : Budget
  router : Router
  total_cost : ℚ
  total_lat : ℚ
  traces : List StepTrace

/-- Externally observable calls issued by the loop, used to state when a
fan-out (debate), judge, or verification round was attempted. -/
inductive Event where
  | debateEv (names : List String) (req : CallRequest)
  | judgeEv (cands : List Candidate)
  | verifyEv (answer : String) (meta : Meta)

/-- The constant `AGENT_SYSTEM_PROMPT` (src/app/utils/prompts.py). -/
def AGENT_SYSTEM_PROMPT : String := "You are a helpful assistant."

/-- The constant `AGENT_IMPROVE_SYSTEM_PROMPT` (prompts.py). -/
def AGENT_IMPROVE_SYSTEM_PROMPT : String := "Improve the answer."

/-- The formatted `AGENT_IMPROVE_USER_PROMPT` text (prompts.py). -/
def improveUser (task previous : String) : String :=
  "Task: " ++ task ++ " Previous answer: " ++ previous ++ " Fix issues succinctly."

/-- The shared first-round request (orchestrator.py line 71). -/
def userReq (task : String) : CallRequest :=
  { system := AGENT_SYSTEM_PROMPT, user := task }

/-- The escalation-round request (orchestrator.py lines 124-129). -/
def improveReq (task previous : String) : CallRequest :=
  { system := AGENT_IMPROVE_SYSTEM_PROMPT, user := improveUser task previous }

/-- The step cost sum, `sum(c.cost_usd for c in cand)`. -/
def sumCosts (l : List Candidate) : ℚ := (l.map Candidate.cost_usd).sum

/-- The step latency, `max((c.latency_s for c in cand), default=0.0)`. -/
def maxLat : List Candidate → ℚ
  | [] => 0
  | c :: cs => (cs.map Candidate.latency_s).foldl max c.latency_s

/-- The trim choice `min(cand, key=lambda c: c.cost_usd)`: the first candidate of minimal
cost; `none` models the `ValueError` on an empty sequence. -/
def minCostCand : List Candidate → Option Candidate
  | [] => none
  | c :: cs => some (cs.foldl (fun best x => if x.cost_usd < best.cost_usd then x else best) c)

/-- Python list indexing `l[i]`, including negative indices;
`none` models an `IndexError`. -/
def pyIndex (l : List α) (i : ℤ) : Option α :=
  if 0 ≤ i then l.get? i.toNat
  else if 0 ≤ i + (l.length : ℤ) then l.get? (i + (l.length : ℤ)).toNat
  else none

/-- The ADMIT phase (orchestrator.py lines 84-92): step cost is the sum of
candidate costs, step latency the max of candidate latencies; when the
budget disallows, trim to the single cheapest candidate and recompute both
from it. -/
def admitPhase (b : Budget) (cand : List Candidate) :
    Option (List Candidate × ℚ × ℚ) :=
  let sc := sumCosts cand
  let sl := maxLat cand
  if b.allow sc sl then some (cand, sc, sl)
  else (minCostCand cand).map (fun ch => ([ch], ch.cost_usd, ch.latency_s))

/-- The JUDGE phase (orchestrator.py lines 97-103): auto-select index 0
with a note if exactly one candidate remains, else ask the judge. -/
def judgePhase (env : Env) (task : String) (cand : List Candidate) :
    Except OrchErr (ℤ × Meta) × List Event :=
  if cand.length = 1 then
    (Except.ok (0, [("judge_text", MetaVal.str "There is only one candidate.")]), [])
  else
    match env.judgePick task cand with
    | Except.ok im => (Except.ok im, [Event.judgeEv cand])
    | Except.error e => (Except.error e, [Event.judgeEv cand])

/-- The values a step has produced after ROUTE / EXECUTE / ADMIT / JUDGE /
VERIFY (orchestrator.py lines 75-113): the local variables of the loop body
just before the escalation test. -/
structure Round1 where
  names : List String
  router1 : Router
  cand : List Candidate
  step_cost : ℚ
  step_lat : ℚ
  j_idx : ℤ
  j_meta : Meta
  chosen : Candidate
  ok1 : Bool
  v_meta : Meta
deriving Repr

/-- ROUTE through VERIFY of one step (orchestrator.py lines 75-113),
together with the externally observable calls made. -/
def round1 (env : Env) (task : String) (step : PlanStep) (st : OrchState) :
    Except OrchErr Round1 × List Event :=
  let pk := st.router.pick_k step.skill step.k_models step.tier_hint
  let req := userReq task
  match Debate.run env.invoke pk.1 req with
  | Except.error e => (Except.error e, [Event.debateEv pk.1 req])
  | Except.ok cand0 =>
    match admitPhase st.budget cand0 with
    | none => (Except.error OrchErr.valueError, [Event.debateEv pk.1 req])
    | some (cand, step_cost, step_lat) =>
      match judgePhase env task cand with
      | (Except.error e, evJ) => (Except.error e, Event.debateEv pk.1 req :: evJ)
      | (Except.ok (j_idx, j_meta), evJ) =>
        match pyIndex cand j_idx with
        | none => (Except.error OrchErr.indexError, Event.debateEv pk.1 req :: evJ)
        | some chosen =>
          let vm := [("skill", MetaVal.str step.skill)]
          match env.verify task chosen.text vm with
          | Except.error e =>
            (Except.error e,
             Event.debateEv pk.1 req :: evJ ++ [Event.verifyEv chosen.text vm])
          | Except.ok (ok1, v_meta) =>
            (Except.ok ⟨pk.1, pk.2, cand, step_cost, step_lat, j_idx, j_meta, chosen, ok1, v_meta⟩,
             Event.debateEv pk.1 req :: evJ ++ [Event.verifyEv chosen.text vm])

/-- The escalation base tier `max(self.adapters[n].spec.tier for n in names)` (orchestrator.py line
117): `KeyError` on an unknown name, `ValueError` on an empty list. -/
def maxTierOf (adapters : List ModelSpec) (names : List String) :
    Except OrchErr ℤ := do
  let tiers ← names.mapM (fun n =>
    match adapters.find? (fun a => a.name == n) with
    | some a => Except.ok a.tier
    | none => Except.error (OrchErr.keyError n))
  match tiers with
  | [] => Except.error OrchErr.valueError
  | t :: ts => Except.ok (ts.foldl max t)

/-- The loop-local values after a completed escalation round
(orchestrator.py lines 114-148). -/
structure EscOut where
  budget : Budget
  total_cost : ℚ
  total_lat : ℚ
  router : Router
  cand2 : List Candidate
  chosen : Candidate
  verified : Bool
  j_meta : Meta
  v_meta : Meta
deriving Repr

/-- The single escalation round (orchestrator.py lines 114-148): route one
worker at `max tier + 1`, fan out the improve request, charge its cost,
re-judge `{original chosen} ∪ {new candidates}`, re-verify, and merge both
rounds' metadata under an `improve` key. -/
def escalate (env : Env) (task : String) (step : PlanStep) (r1 : Round1)
    (budget1 : Budget) (tc tl : ℚ) : Except OrchErr EscOut × List Event :=
  match maxTierOf env.adapters r1.names with
  | Except.error e => (Except.error e, [])
  | Except.ok mt =>
    let next_tier := mt + 1
    let pk := r1.router1.pick_k step.skill 1 (some next_tier)
    let req2 := improveReq task r1.chosen.text
    match Debate.run env.invoke pk.1 req2 with
    | Except.error e => (Except.error e, [Event.debateEv pk.1 req2])
    | Except.ok cand2 =>
      let tc2 := tc + sumCosts cand2
      let tl2 := tl + maxLat cand2
      let budget2 := budget1.charge (sumCosts cand2)
      let all_cand := r1.chosen :: cand2
      match env.judgePick task all_cand with
      | Except.error e =>
        (Except.error e, [Event.debateEv pk.1 req2, Event.judgeEv all_cand])
      | Except.ok (j2, jm2) =>
        match pyIndex all_cand j2 with
        | none =>
          (Except.error OrchErr.indexError,
           [Event.debateEv pk.1 req2, Event.judgeEv all_cand])
        | some chosen2 =>
          let vm := [("skill", MetaVal.str step.skill), ("round", MetaVal.int 2)]
          match env.verify task chosen2.text vm with
          | Except.error e =>
            (Except.error e,
             [Event.debateEv pk.1 req2, Event.judgeEv all_cand,
              Event.verifyEv chosen2.text vm])
          | Except.ok (ok2, vm2) =>
            (Except.ok ⟨budget2, tc2, tl2, pk.2, cand2, chosen2, ok2,
                        dictSet r1.j_meta "improve" (MetaVal.nested jm2),
                        dictSet r1.v_meta "improve" (MetaVal.nested vm2)⟩,
             [Event.debateEv pk.1 req2, Event.judgeEv all_cand,
              Event.verifyEv chosen2.text vm])

/-- One iteration of the per-step loop (orchestrator.py lines 73-166):
first round, charge, conditional single escalation round, router feedback,
and the appended `StepTrace` (note `chosen_idx := j_idx`, the first-round
judge index, in both branches). -/
def runStep (env : Env) (task : String) (si : ℕ) (step : PlanStep)
    (st : OrchState) : Except OrchErr OrchState × List Event :=
  match round1 env task step st with
  | (Except.error e, evs) => (Except.error e, evs)
  | (Except.ok r1, evs) =>
    let budget1 := st.budget.charge r1.step_cost
    let tc1 := st.total_cost + r1.step_cost
    let tl1 := st.total_lat + r1.step_lat
    if r1.ok1 = false ∧ 0 < step.max_rounds ∧ 0 < budget1.usd_left then
      match escalate env task step r1 budget1 tc1 tl1 with
      | (Except.error e, evs2) => (Except.error e, evs ++ evs2)
      | (Except.ok esc, evs2) =>
        match esc.router.update esc.chosen.model
            (if esc.verified then 1 else 0) esc.chosen.cost_usd with
        | none => (Except.error (OrchErr.keyError esc.chosen.model), evs ++ evs2)
        | some routerF =>
          (Except.ok ⟨esc.budget, routerF, esc.total_cost, esc.total_lat,
            st.traces ++ [⟨si, step.skill, r1.names, r1.cand, r1.j_idx,
                           esc.j_meta, esc.verified, esc.v_meta⟩]⟩,
           evs ++ evs2)
    else
      match r1.router1.update r1.chosen.model
          (if r1.ok1 then 1 else 0) r1.chosen.cost_usd with
      | none => (Except.error (OrchErr.keyError r1.chosen.model), evs)
      | some routerF =>
        (Except.ok ⟨budget1, routerF, tc1, tl1,
          st.traces ++ [⟨si, step.skill, r1.names, r1.cand, r1.j_idx,
                         r1.j_meta, r1.ok1, r1.v_meta⟩]⟩,
         evs)

/-- The step loop over the remaining plan steps. -/
def runSteps (env : Env) (task : String) :
    List PlanStep → ℕ → OrchState → Except OrchErr OrchState × List Event
  | [], _, st => (Except.ok st, [])
  | s :: rest, si, st =>
    match runStep env task si s st with
    | (Except.error e, evs) => (Except.error e, evs)
    | (Except.ok st1, evs) =>
      let r := runSteps env task rest (si + 1) st1
      (r.1, evs ++ r.2)

/-- FINALIZE (orchestrator.py lines 168-172): `final_text` is read from the
last `StepTrace`'s candidate list at its `chosen_idx` (empty string when no
step ran); `none` would be an `IndexError`. -/
def finalTextOf (traces : List StepTrace) : Except OrchErr String :=
  match traces.getLast? with
  | none => Except.ok ""
  | some t =>
    match pyIndex t.candidates t.chosen_idx with
    | some c => Except.ok c.text
    | none => Except.error OrchErr.indexError

/-- Embedding of `Orchestrator.run` (orchestrator.py lines 49-179) after plan
acquisition: build the budget from the plan ceilings, run every step, and
assemble the `RunTrace`.  An `Except.error` outcome models the run aborting
with no partial `RunTrace` returned. -/
def Orchestrator.run (env : Env) (task : String) (plan : Plan)
    (router : Router) : Except OrchErr RunTrace × List Event :=
  let st0 : OrchState :=
    ⟨⟨plan.hard_budget_usd, plan.hard_latency_s⟩, router, 0, 0, []⟩
  match runSteps env task plan.steps 0 st0 with
  | (Except.error e, evs) => (Except.error e, evs)
  | (Except.ok stf, evs) =>
    match finalTextOf stf.traces with
    | Except.error e => (Except.error e, evs)
    | Except.ok ft =>
      (Except.ok ⟨task, ft, stf.traces, stf.total_cost, stf.total_lat⟩, evs)

/-- An escalation fan-out is recognizable by its improve system prompt. -/
def isEscDebate : Event → Bool
  | Event.debateEv _ req => req.system == AGENT_IMPROVE_SYSTEM_PROMPT
  | _ => false

/-- Returns true exactly when an `Except` computation failed. -/
def exceptFailed : Except OrchErr α → Bool
  | Except.error _ => true
  | Except.ok _ => false

/-- A single cheap generalist worker used by the concrete end-to-end
witnesses. -/
def wAdapter : ModelSpec := ⟨"m0", "p", 0, 0, none, none, 512, 0, []⟩

/-- Worker invocation for the witnesses: always succeeds; the answer text
records whether the improve prompt was used. -/
def wInvokeB : String → CallRequest → Except OrchErr CallResult :=
  fun n req => Except.ok
    ⟨(if req.system == AGENT_IMPROVE_SYSTEM_PROMPT then "imp-" ++ n else "ans-" ++ n),
     3, 5, 1, 1/100⟩

/-- Judge for the witnesses: always picks the last candidate. -/
def wJudge : String → List Candidate → Except OrchErr (ℤ × Meta) :=
  fun _ cands => Except.ok ((cands.length : ℤ) - 1, [("judge_text", MetaVal.str "best")])

/-- Verifier for the witnesses: rejects first-round answers and accepts
escalation-round answers (it looks for the `round` metadata key). -/
def wVerify : String → String → Meta → Except OrchErr (Bool × Meta) :=
  fun _ _ meta => Except.ok ((List.lookup "round" meta).isSome,
    [("verifier_text", MetaVal.str "v")])

def wEnv : Env := ⟨[wAdapter], wInvokeB, wJudge, wVerify⟩

/-- A worker invocation that always fails, for the abort witnesses. -/
def wEnvFail : Env :=
  ⟨[wAdapter], fun _ _ => Except.error (OrchErr.workerFailure "boom"),
   wJudge, wVerify⟩

def wStep : PlanStep := ⟨"", "demo", 1, none, 1⟩

def wPlan : Plan := ⟨[wStep], 1, none, 123⟩

def wRouter : Router := Router.init [wAdapter] RouterCfg.default 123

def wSt0 : OrchState := ⟨⟨1, none⟩, wRouter, 0, 0, []⟩

def wCandDefault : Candidate := ⟨"", "", 0, 0, 0, 0⟩

/-- The first-round values of the witness step (extracted from the run). -/
def wR1 : Round1 :=
  match (round1 wEnv "t" wStep wSt0).1 with
  | Except.ok r => r
  | Except.error _ => ⟨[], wRouter, [], 0, 0, 0, [], wCandDefault, false, []⟩

/-- The state after the witness step (extracted from the run). -/
def wStf : OrchState :=
  match (runStep wEnv "t" 0 wStep wSt0).1 with
  | Except.ok st => st
  | Except.error _ => wSt0

/-- Two candidates of distinct costs for the ADMIT witnesses. -/
def wc1 : Candidate := ⟨"m0", "a", 1, 1/100, 3, 5⟩

def wc2 : Candidate := ⟨"m1", "b", 2, 2/100, 3, 5⟩

/-- A worker invocation that succeeds on the first-round prompt but fails
on the escalation-round improve prompt, witnessing that escalation-round
failures also abort the run. -/
def wEnvEscFail : Env :=
  ⟨[wAdapter],
   fun n req =>
     if req.system == AGENT_IMPROVE_SYSTEM_PROMPT
     then Except.error (OrchErr.workerFailure "boom2")
     else wInvokeB n req,
   wJudge, wVerify⟩

/-- The first-round values of the escalation-failure witness step
(extracted from the run). -/
def wR1b : Round1 :=
  match (round1 wEnvEscFail "t" wStep wSt0).1 with
  | Except.ok r => r
  | Except.error _ => ⟨[], wRouter, [], 0, 0, 0, [], wCandDefault, false, []⟩

lemma ArmStat.update_pulls (s : ArmStat) (r c : ℚ) :
    (s.update r c).pulls = s.pulls + 1 := rfl

lemma applyUpdates_invariant (us : List (ℚ × ℚ)) : ∀ s : ArmStat,
    (applyUpdates s us).pulls = s.pulls + us.length ∧
    (applyUpdates s us).winrate * ((s.pulls : ℚ) + (us.length : ℚ))
      = s.winrate * (s.pulls : ℚ) + (us.map Prod.fst).sum ∧
    (applyUpdates s us).cost * ((s.pulls : ℚ) + (us.length : ℚ))
      = s.cost * (s.pulls : ℚ) + (us.map Prod.snd).sum := by
  induction us with
  | nil => intro s; simp [applyUpdates]
  | cons u tl ih =>
    intro s
    have h := ih (s.update u.1 u.2)
    have hne : ((s.pulls : ℚ) + 1) ≠ 0 := by positivity
    have hstep : applyUpdates s (u :: tl) = applyUpdates (s.update u.1 u.2) tl := rfl
    obtain ⟨hp, hw, hc⟩ := h
    refine ⟨?_, ?_, ?_⟩
    · rw [hstep, hp]
      show s.pulls + 1 + tl.length = s.pulls + (u :: tl).length
      simp [List.length_cons]
      omega
    · rw [hstep]
      have hcast : ((s.update u.1 u.2).pulls : ℚ) = (s.pulls : ℚ) + 1 := by
        rw [ArmStat.update_pulls]; push_cast; ring
      have hwin : (s.update u.1 u.2).winrate
          = s.winrate + (u.1 - s.winrate) / ((s.pulls : ℚ) + 1) := by
        show s.winrate + (u.1 - s.winrate) / ((s.pulls + 1 : ℕ) : ℚ) = _
        push_cast; ring_nf
      rw [hcast, hwin] at hw
      have hlen : ((u :: tl).length : ℚ) = (tl.length : ℚ) + 1 := by
        simp [List.length_cons]
      rw [hlen]
      have : (applyUpdates (s.update u.1 u.2) tl).winrate
          * ((s.pulls : ℚ) + ((tl.length : ℚ) + 1))
          = (s.winrate + (u.1 - s.winrate) / ((s.pulls : ℚ) + 1))
            * ((s.pulls : ℚ) + 1) + (tl.map Prod.fst).sum := by
        calc (applyUpdates (s.update u.1 u.2) tl).winrate
            * ((s.pulls : ℚ) + ((tl.length : ℚ) + 1))
            = (applyUpdates (s.update u.1 u.2) tl).winrate
            * (((s.pulls : ℚ) + 1) + (tl.length : ℚ)) := by ring_nf
          _ = _ := hw
      rw [this]
      have hexp : (s.winrate + (u.1 - s.winrate) / ((s.pulls : ℚ) + 1))
          * ((s.pulls : ℚ) + 1) = s.winrate * (s.pulls : ℚ) + u.1 := by
        field_simp
        ring
      rw [hexp]
      simp [List.map_cons, List.sum_cons]
      ring
    · rw [hstep]
      have hcast : ((s.update u.1 u.2).pulls : ℚ) = (s.pulls : ℚ) + 1 := by
        rw [ArmStat.update_pulls]; push_cast; ring
      have hcost : (s.update u.1 u.2).cost
          = s.cost + (u.2 - s.cost) / ((s.pulls : ℚ) + 1) := by
        show s.cost + (u.2 - s.cost) / ((s.pulls + 1 : ℕ) : ℚ) = _
        push_cast; ring_nf
      rw [hcast, hcost] at hc
      have hlen : ((u :: tl).length : ℚ) = (tl.length : ℚ) + 1 := by
        simp [List.length_cons]
      rw [hlen]
      have : (applyUpdates (s.update u.1 u.2) tl).cost
          * ((s.pulls : ℚ) + ((tl.length : ℚ) + 1))
          = (s.cost + (u.2 - s.cost) / ((s.pulls : ℚ) + 1))
            * ((s.pulls : ℚ) + 1) + (tl.map Prod.snd).sum := by
        calc (applyUpdates (s.update u.1 u.2) tl).cost
            * ((s.pulls : ℚ) + ((tl.length : ℚ) + 1))
            = (applyUpdates (s.update u.1 u.2) tl).cost
            * (((s.pulls : ℚ) + 1) + (tl.length : ℚ)) := by ring_nf
          _ = _ := hc
      rw [this]
      have hexp : (s.cost + (u.2 - s.cost) / ((s.pulls : ℚ) + 1))
          * ((s.pulls : ℚ) + 1) = s.cost * (s.pulls : ℚ) + u.2 := by
        field_simp
        ring
      rw [hexp]
      simp [List.map_cons, List.sum_cons]
      ring

lemma applyUpdates_pulls_mono (s : ArmStat) (us : List (ℚ × ℚ)) :
    s.pulls ≤ (applyUpdates s us).pulls := by
  have h := (applyUpdates_invariant us s).1
  omega

/-- C4: starting from `{pulls:0, winrate:0, cost:0}`, after any sequence of
`ArmStat.update (reward, cost)` calls, `pulls` equals the number of calls and
the stored `winrate` and `cost` fields are the exact arithmetic mean of the
rewards resp. costs supplied so far; moreover `pulls` never decreases under
further updates from any state. -/
theorem armstat_exact_mean (us : List (ℚ × ℚ)) :
    (applyUpdates ArmStat.init us).pulls = us.length ∧
    (applyUpdates ArmStat.init us).winrate
      = (us.map Prod.fst).sum / (us.length : ℚ) ∧
    (applyUpdates ArmStat.init us).cost
      = (us.map Prod.snd).sum / (us.length : ℚ) ∧
    (∀ (s : ArmStat) (vs : List (ℚ × ℚ)), s.pulls ≤ (applyUpdates s vs).pulls) := by
  obtain ⟨hp, hw, hc⟩ := applyUpdates_invariant us ArmStat.init
  simp only [ArmStat.init] at hp hw hc
  refine ⟨by simpa using hp, ?_, ?_, fun s vs => applyUpdates_pulls_mono s vs⟩
  · rcases us with _ | ⟨u, tl⟩
    · simp [applyUpdates, ArmStat.init]
    · have hne : (((u :: tl).length : ℚ)) ≠ 0 := by
        simp [List.length_cons]
        positivity
      rw [eq_div_iff hne]
      simpa using hw
  · rcases us with _ | ⟨u, tl⟩
    · simp [applyUpdates, ArmStat.init]
    · have hne : (((u :: tl).length : ℚ)) ≠ 0 := by
        simp [List.length_cons]
        positivity
      rw [eq_div_iff hne]
      simpa using hc

/-- C5: `Budget.allow cost latency` is false iff `cost > remaining` or a
deadline is set and `latency > deadline` (and, being a pure function of the
budget value, it cannot modify the budget); `Budget.charge cost` decreases
`usd_left` by exactly `cost` and leaves the deadline untouched, with no
floor, so the remaining amount goes negative whenever `cost` exceeds it. -/
theorem budget_allow_charge (b : Budget) (cost latency : ℚ) :
    (b.allow cost latency = false ↔
      b.usd_left < cost ∨ ∃ d, b.deadline_s = some d ∧ d < latency) ∧
    (b.charge cost).usd_left = b.usd_left - cost ∧
    (b.charge cost).deadline_s = b.deadline_s ∧
    (b.usd_left < cost → (b.charge cost).usd_left < 0) := by
  refine ⟨?_, rfl, rfl, ?_⟩
  · unfold Budget.allow
    rcases b with ⟨u, _ | d⟩ <;> constructor <;> intro h
    · by_cases hu : u < cost
      · exact Or.inl hu
      · simp [hu] at h
    · rcases h with h | ⟨d, hd, _⟩
      · simp [h]
      · exact absurd hd (by simp)
    · by_cases hu : u < cost
      · exact Or.inl hu
      · by_cases hd : d < latency
        · exact Or.inr ⟨d, rfl, hd⟩
        · simp [hu, hd] at h
    · rcases h with h | ⟨d2, hd2, hlt⟩
      · simp [h]
      · simp only [Option.some.injEq] at hd2
        subst hd2
        by_cases hu : u < cost <;> simp [hu, hlt]
  · intro h
    show b.usd_left - cost < 0
    linarith

/-- Witness for C5 at the §8 example: `Budget(remaining=0.10, deadline=None)`
allows `(0.05, 1.0)`, disallows `(0.06,1.0)` after charging `0.05`; and an
over-charge drives the remaining amount negative. -/
theorem budget_allow_charge_witness :
    ((Budget.mk (1/10) none).charge (5/100)).usd_left = 1/10 - 5/100 ∧
    ((Budget.mk (1/10) none).charge (2/10)).usd_left < 0 := by
  refine ⟨(budget_allow_charge (Budget.mk (1/10) none) (5/100) 1).2.1, ?_⟩
  exact (budget_allow_charge (Budget.mk (1/10) none) (2/10) 1).2.2.2 (by norm_num)

lemma insertDesc_length (x : ModelSpec × ℚ) (l : List (ModelSpec × ℚ)) :
    (insertDesc x l).length = l.length + 1 := by
  induction l with
  | nil => rfl
  | cons y ys ih =>
    unfold insertDesc
    split <;> simp [List.length_cons, ih]

lemma sortDesc_length (l : List (ModelSpec × ℚ)) :
    (sortDesc l).length = l.length := by
  induction l with
  | nil => rfl
  | cons x xs ih => simp [sortDesc, insertDesc_length, ih]

lemma mem_insertDesc {x y : ModelSpec × ℚ} {l : List (ModelSpec × ℚ)} :
    y ∈ insertDesc x l ↔ y = x ∨ y ∈ l := by
  induction l with
  | nil => simp [insertDesc]
  | cons z zs ih =>
    unfold insertDesc
    split
    · simp [List.mem_cons]
    · simp only [List.mem_cons, ih]
      tauto

lemma mem_sortDesc {y : ModelSpec × ℚ} {l : List (ModelSpec × ℚ)} :
    y ∈ sortDesc l ↔ y ∈ l := by
  induction l with
  | nil => simp [sortDesc]
  | cons x xs ih =>
    simp only [sortDesc, mem_insertDesc, List.mem_cons, ih]

lemma scoreList_map_fst (r : Router) (l : List ModelSpec) (g : PyRandom) :
    (r.scoreList l g).1.map Prod.fst = l := by
  induction l generalizing g with
  | nil => rfl
  | cons a rest ih => simp [Router.scoreList, ih]

lemma stepFilter_tier {skill : String} {tier_hint : Option ℤ} {a : ModelSpec}
    (h : stepFilter skill tier_hint a = true) :
    ∀ t, tier_hint = some t → t ≤ a.tier := by
  intro t ht
  subst ht
  simp only [stepFilter, Bool.and_eq_true, decide_eq_true_eq] at h
  exact h.1

/-- C6: on a non-empty adapter set, `pick_k` returns between 1 and
`max 1 k` identities (at least one even for `k = 0`), all of which name
adapters of the router; and whenever at least one adapter passes the
skill-and-tier filter, every returned identity names an adapter that passes
the filter — in particular one that satisfies the tier bound. -/
theorem pick_k_spec (r : Router) (skill : String) (k : ℤ) (tier_hint : Option ℤ)
    (hne : r.adapters ≠ []) :
    1 ≤ ((r.pick_k skill k tier_hint).1).length ∧
    ((r.pick_k skill k tier_hint).1).length ≤ (max 1 k).toNat ∧
    (∀ n ∈ (r.pick_k skill k tier_hint).1, ∃ a ∈ r.adapters, a.name = n) ∧
    ((∃ a ∈ r.adapters, stepFilter skill tier_hint a = true) →
      ∀ n ∈ (r.pick_k skill k tier_hint).1,
        ∃ a ∈ r.adapters, a.name = n ∧ stepFilter skill tier_hint a = true ∧
          ∀ t, tier_hint = some t → t ≤ a.tier) := by
  classical
  simp only [Router.pick_k]
  set cand0 := r.adapters.filter (stepFilter skill tier_hint) with hcand0
  set cand : List ModelSpec := if cand0.isEmpty then r.adapters else cand0 with hcand
  have hcand_ne : cand ≠ [] := by
    rw [hcand]
    split
    · exact hne
    · intro hnil
      simp_all [List.isEmpty_iff]
  have hcand_sub : ∀ a ∈ cand, a ∈ r.adapters := by
    intro a ha
    rw [hcand] at ha
    revert ha
    split
    · exact fun h => h
    · exact fun h => List.mem_of_mem_filter h
  set scored := r.scoreList cand r.rng with hscored
  have hmapfst : scored.1.map Prod.fst = cand := scoreList_map_fst r cand r.rng
  have hslen : (sortDesc scored.1).length = cand.length := by
    rw [sortDesc_length]
    have := congrArg List.length hmapfst
    simpa using this
  have hmem_sorted : ∀ p ∈ sortDesc scored.1, p.1 ∈ cand := by
    intro p hp
    rw [mem_sortDesc] at hp
    have : p.1 ∈ scored.1.map Prod.fst := List.mem_map_of_mem Prod.fst hp
    rwa [hmapfst] at this
  have htake : ∀ p ∈ (sortDesc scored.1).take (max 1 k).toNat, p.1 ∈ cand :=
    fun p hp => hmem_sorted p (List.take_subset _ _ hp)
  have hlen : (((sortDesc scored.1).take (max 1 k).toNat).map
      (fun p => p.1.name)).length = min (max 1 k).toNat cand.length := by
    rw [List.length_map, List.length_take, hslen]
  have hone : 1 ≤ (max 1 k).toNat := by
    simp
  have hcpos : 1 ≤ cand.length := List.length_pos.mpr hcand_ne
  refine ⟨?_, ?_, ?_, ?_⟩
  · rw [hlen]; exact le_min hone hcpos
  · rw [hlen]; exact min_le_left _ _
  · intro n hn
    rw [List.mem_map] at hn
    obtain ⟨p, hp, hpn⟩ := hn
    exact ⟨p.1, hcand_sub p.1 (htake p hp), hpn⟩
  · rintro ⟨a0, ha0, hfil⟩ n hn
    have hc0ne : cand0 ≠ [] := by
      intro hnil
      have : a0 ∈ cand0 := List.mem_filter.mpr ⟨ha0, hfil⟩
      simp [hnil] at this
    have hcand_eq : cand = cand0 := by
      rw [hcand, if_neg (by simpa [List.isEmpty_iff] using hc0ne)]
    rw [List.mem_map] at hn
    obtain ⟨p, hp, hpn⟩ := hn
    have hpc : p.1 ∈ cand0 := by rw [← hcand_eq]; exact htake p hp
    have hfil2 : stepFilter skill tier_hint p.1 = true :=
      List.of_mem_filter hpc
    exact ⟨p.1, List.mem_of_mem_filter hpc, hpn, hfil2, stepFilter_tier hfil2⟩

/-- Witness for C6 at the §8 example: workers `A{tier:0, skills:[code]}`,
`B{tier:1, skills:[math]}`; `pick_k "math" 1 (tier_hint := 1)` must return
`["B"]` — checked here through the length/membership/tier conclusions. -/
theorem pick_k_spec_witness :
    1 ≤ (((Router.init
      [⟨"A", "p", 0, 0, none, none, 512, 0, ["code"]⟩,
       ⟨"B", "p", 0, 0, none, none, 512, 1, ["math"]⟩]
      RouterCfg.default 123).pick_k "math" 1 (some 1)).1).length ∧
    ((Router.init
      [⟨"A", "p", 0, 0, none, none, 512, 0, ["code"]⟩,
       ⟨"B", "p", 0, 0, none, none, 512, 1, ["math"]⟩]
      RouterCfg.default 123).pick_k "math" 1 (some 1)).1 = ["B"] := by
  refine ⟨(pick_k_spec _ "math" 1 (some 1) (by decide)).1, ?_⟩
  rfl

/-- C9: two routers constructed with the same adapters, configuration and
seed, replaying the same call sequence, produce identical selection lists at
every `pick_k` and identical final per-worker statistics.  The generator is
a field of the `Router` value, advanced only by `pick_k`'s scoring — no
other definition in this development reads or writes it — so the whole
replay is a pure function of the seed and the call sequence. -/
theorem router_reproducible (adapters : List ModelSpec) (cfg : RouterCfg)
    (s1 s2 : ℕ) (calls : List RCall) (hseed : s1 = s2) :
    Router.runCalls (Router.init adapters cfg s1) calls
      = Router.runCalls (Router.init adapters cfg s2) calls := by
  subst hseed
  rfl

/-- Witness for C9: a concrete two-adapter router replayed over a
pick/update/pick sequence from equal seeds. -/
theorem router_reproducible_witness :
    Router.runCalls (Router.init
      [⟨"A", "p", 0, 0, none, none, 512, 0, ["code"]⟩,
       ⟨"B", "p", 0, 0, none, none, 512, 1, ["math"]⟩]
      RouterCfg.default 123)
      [RCall.pick "code" 2 none, RCall.upd "A" 1 (1/100), RCall.pick "" 1 (some 1)]
      = Router.runCalls (Router.init
      [⟨"A", "p", 0, 0, none, none, 512, 0, ["code"]⟩,
       ⟨"B", "p", 0, 0, none, none, 512, 1, ["math"]⟩]
      RouterCfg.default 123)
      [RCall.pick "code" 2 none, RCall.upd "A" 1 (1/100), RCall.pick "" 1 (some 1)] :=
  router_reproducible _ RouterCfg.default 123 123 _ rfl

/-- C10: when no adapter reaches the requested tier, the `pick_k` filter is
empty, the router falls back to the entire adapter set, and the `k = 1`
escalation request returns exactly one identity — an adapter whose tier is
below the requested `next_tier`. -/
theorem pick_k_escalation_fallback (r : Router) (skill : String) (t : ℤ)
    (hne : r.adapters ≠ []) (hlow : ∀ a ∈ r.adapters, a.tier < t) :
    ∃ a ∈ r.adapters, (r.pick_k skill 1 (some t)).1 = [a.name] ∧ a.tier < t := by
  classical
  have hfil : r.adapters.filter (stepFilter skill (some t)) = [] := by
    rw [List.filter_eq_nil_iff]
    intro a ha
    have : ¬ t ≤ a.tier := not_le.mpr (hlow a ha)
    simp [stepFilter, this]
  simp only [Router.pick_k, hfil, List.isEmpty_nil, if_pos]
  set scored := r.scoreList r.adapters r.rng with hscored
  have hmapfst : scored.1.map Prod.fst = r.adapters := scoreList_map_fst r _ r.rng
  have hslen : (sortDesc scored.1).length = r.adapters.length := by
    rw [sortDesc_length]
    have := congrArg List.length hmapfst
    simpa using this
  have hpos : 0 < (sortDesc scored.1).length := by
    rw [hslen]
    exact List.length_pos.mpr hne
  obtain ⟨p, rest, hsd⟩ := List.exists_cons_of_ne_nil (List.length_pos.mp hpos)
  have hmax : ((max (1 : ℤ) 1).toNat) = 1 := rfl
  have hp_mem : p.1 ∈ r.adapters := by
    have hpmem : p ∈ sortDesc scored.1 := by rw [hsd]; exact List.mem_cons_self p rest
    rw [mem_sortDesc] at hpmem
    have : p.1 ∈ scored.1.map Prod.fst := List.mem_map_of_mem Prod.fst hpmem
    rwa [hmapfst] at this
  refine ⟨p.1, hp_mem, ?_, hlow p.1 hp_mem⟩
  rw [hmax, hsd]
  rfl

/-- Witness for C10: a single cheap worker whose answer was just rejected;
the tier-escalated `pick_k` request falls back and returns that same worker,
whose tier is below the requested one. -/
theorem pick_k_escalation_fallback_witness :
    ∃ a ∈ (Router.init [⟨"cheap", "p", 0, 0, none, none, 512, 0, []⟩]
        RouterCfg.default 123).adapters,
      ((Router.init [⟨"cheap", "p", 0, 0, none, none, 512, 0, []⟩]
        RouterCfg.default 123).pick_k "code" 1 (some 1)).1 = [a.name] ∧ a.tier < 1 :=
  pick_k_escalation_fallback _ "code" 1 (by decide) (by decide)

lemma gather_foldl_length (jobs : List Candidate) (sched : List ℕ) :
    ∀ acc : List (Option Candidate),
      (sched.foldl (fun a j => a.set j (jobs.get? j)) acc).length = acc.length := by
  induction sched with
  | nil => intro acc; rfl
  | cons j rest ih =>
    intro acc
    simp only [List.foldl_cons]
    rw [ih]
    exact List.length_set acc j _

lemma gather_foldl_get (jobs : List Candidate) (sched : List ℕ) :
    ∀ acc : List (Option Candidate), acc.length = jobs.length →
    ∀ i : ℕ,
      (sched.foldl (fun a j => a.set j (jobs.get? j)) acc).get? i
        = if i ∈ sched ∧ i < jobs.length then some (jobs.get? i) else acc.get? i := by
  induction sched with
  | nil =>
    intro acc _ i
    simp
  | cons j rest ih =>
    intro acc hlen i
    simp only [List.foldl_cons]
    have hlen2 : (acc.set j (jobs.get? j)).length = jobs.length := by
      rw [List.length_set]; exact hlen
    rw [ih _ hlen2 i]
    by_cases hmem : i ∈ rest ∧ i < jobs.length
    · rw [if_pos hmem, if_pos ⟨List.mem_cons_of_mem j hmem.1, hmem.2⟩]
    · rw [if_neg hmem]
      rw [List.get?_set]
      by_cases hij : j = i
      · subst hij
        by_cases hj : j < jobs.length
        · have hacc : ∃ v, acc.get? j = some v := by
            rw [← Option.ne_none_iff_exists']
            intro hnone
            rw [List.get?_eq_none] at hnone
            omega
          obtain ⟨v, hv⟩ := hacc
          rw [if_pos rfl, hv, if_pos ⟨List.mem_cons_self j rest, hj⟩]
          rfl
        · have : ¬ (j ∈ j :: rest ∧ j < jobs.length) := fun h => hj h.2
          rw [if_pos rfl, if_neg this]
          have : acc.get? j = none := by
            rw [List.get?_eq_none]; omega
          rw [this]
          rfl
      · rw [if_neg hij]
        have : ¬ (i ∈ j :: rest ∧ i < jobs.length) := by
          rintro ⟨hmem2, hlt⟩
          rcases List.mem_cons.mp hmem2 with h | h
          · exact hij h.symm
          · exact hmem ⟨h, hlt⟩
        rw [if_neg this]

lemma reduceOption_map_some (l : List Candidate) :
    (l.map (fun x => some x)).reduceOption = l := by
  induction l with
  | nil => rfl
  | cons x xs ih => simp [List.reduceOption_cons_of_some, ih]

/-- Under any completion order that is a permutation of the task indices,
the gathered slots are exactly the jobs in input order. -/
lemma asyncGather_perm (jobs : List Candidate) (sched : List ℕ)
    (hperm : sched.Perm (List.range jobs.length)) :
    asyncGather jobs sched = some jobs := by
  have hslots : (sched.foldl (fun a j => a.set j (jobs.get? j))
      (List.replicate jobs.length (none : Option Candidate)))
      = jobs.map (fun x => some x) := by
    apply List.ext_get?_iff.mpr
    intro i
    rw [gather_foldl_get jobs sched _ (by rw [List.length_replicate]) i]
    by_cases hi : i < jobs.length
    · have hmem : i ∈ sched := hperm.mem_iff.mpr (List.mem_range.mpr hi)
      rw [if_pos ⟨hmem, hi⟩, List.get?_map]
      obtain ⟨v, hv⟩ : ∃ v, jobs.get? i = some v := by
        rw [← Option.ne_none_iff_exists']
        intro hnone
        rw [List.get?_eq_none] at hnone
        omega
      rw [hv]
      rfl
    · have : ¬ (i ∈ sched ∧ i < jobs.length) := fun h => hi h.2
      rw [if_neg this, List.get?_map]
      have h1 : (List.replicate jobs.length (none : Option Candidate)).get? i = none := by
        rw [List.get?_eq_none, List.length_replicate]; omega
      have h2 : jobs.get? i = none := by
        rw [List.get?_eq_none]; omega
      rw [h1, h2]
      rfl
  unfold asyncGather
  simp only [hslots]
  rw [if_pos (by simp [List.all_eq_true]), reduceOption_map_some]

lemma debate_run_ok (invoke : String → CallRequest → Except OrchErr CallResult)
    (req : CallRequest) :
    ∀ (names : List String) (res : ℕ → CallResult),
      (∀ i, i < names.length → invoke (names.getD i "") req = Except.ok (res i)) →
      Debate.run invoke names req
        = Except.ok ((List.range names.length).map
            (fun i => candOf (names.getD i "") (res i))) := by
  intro names
  induction names with
  | nil => intro res _; rfl
  | cons n tl ih =>
    intro res hres
    have h0 : invoke n req = Except.ok (res 0) := by
      have := hres 0 (by simp)
      simpa using this
    have htl : ∀ i, i < tl.length →
        invoke (tl.getD i "") req = Except.ok (res (i + 1)) := by
      intro i hi
      have := hres (i + 1) (by simp; omega)
      simpa using this
    have ihtl := ih (fun i => res (i + 1)) htl
    show (n :: tl).mapM (fun m => (invoke m req).map (candOf m)) = _
    rw [List.mapM_cons]
    have hbind : ((invoke n req).map (candOf n)) = Except.ok (candOf n (res 0)) := by
      rw [h0]; rfl
    rw [hbind]
    show (tl.mapM (fun m => (invoke m req).map (candOf m))).bind _ = _
    have ihtl2 : tl.mapM (fun m => (invoke m req).map (candOf m))
        = Except.ok ((List.range tl.length).map
            (fun i => candOf (tl.getD i "") (res (i + 1)))) := ihtl
    rw [ihtl2]
    show Except.ok _ = _
    congr 1
    rw [List.length_cons, List.range_succ_eq_map, List.map_cons, List.map_map]
    congr 1

/-- C7: for any list of worker identities, any request, and any completion
order (any permutation of the task indices), the fan-out executor resolves
to a candidate list of the same length as the input in which the i-th
candidate is built from the i-th identity's invocation result — in
particular its `model` field is the i-th input name — and that list is
exactly what `Debate.run` returns. -/
theorem debate_preserves_order
    (invoke : String → CallRequest → Except OrchErr CallResult)
    (names : List String) (req : CallRequest)
    (res : ℕ → CallResult) (sched : List ℕ)
    (hres : ∀ i, i < names.length → invoke (names.getD i "") req = Except.ok (res i))
    (hperm : sched.Perm (List.range names.length)) :
    asyncGather ((List.range names.length).map
        (fun i => candOf (names.getD i "") (res i))) sched
      = some ((List.range names.length).map
        (fun i => candOf (names.getD i "") (res i))) ∧
    Debate.run invoke names req
      = Except.ok ((List.range names.length).map
        (fun i => candOf (names.getD i "") (res i))) ∧
    ((List.range names.length).map
        (fun i => candOf (names.getD i "") (res i))).length = names.length ∧
    (∀ i, i < names.length →
      ((List.range names.length).map
        (fun i => candOf (names.getD i "") (res i))).get? i
        = some (candOf (names.getD i "") (res i)) ∧
      (((List.range names.length).map
        (fun i => candOf (names.getD i "") (res i))).get? i).map Candidate.model
        = some (names.getD i "")) := by
  have hlen : ((List.range names.length).map
      (fun i => candOf (names.getD i "") (res i))).length = names.length := by
    rw [List.length_map, List.length_range]
  have hget : ∀ i, i < names.length →
      ((List.range names.length).map
        (fun i => candOf (names.getD i "") (res i))).get? i
        = some (candOf (names.getD i "") (res i)) := by
    intro i hi
    rw [List.get?_map, List.get?_range hi]
    rfl
  refine ⟨?_, debate_run_ok invoke req names res hres, hlen, ?_⟩
  · apply asyncGather_perm
    rw [hlen]
    exact hperm
  · intro i hi
    exact ⟨hget i hi, by rw [hget i hi]; rfl⟩

/-- Witness for C7: identities `[X, Y, Z]` with completion order `[2, 0, 1]`
still gather to `[result(X), result(Y), result(Z)]`, which is the
`Debate.run` output. -/
theorem debate_preserves_order_witness :
    Debate.run wInvoke ["X", "Y", "Z"] ⟨"s", "u", 1/5, none⟩
      = Except.ok ((List.range 3).map
          (fun i => candOf (["X", "Y", "Z"].getD i "") (wRes i))) ∧
    asyncGather ((List.range 3).map
        (fun i => candOf (["X", "Y", "Z"].getD i "") (wRes i))) [2, 0, 1]
      = some ((List.range 3).map
          (fun i => candOf (["X", "Y", "Z"].getD i "") (wRes i))) := by
  have h := debate_preserves_order wInvoke ["X", "Y", "Z"] ⟨"s", "u", 1/5, none⟩
    wRes [2, 0, 1]
    (by
      intro i hi
      have hi3 : i < 3 := by simpa using hi
      interval_cases i <;> rfl)
    (by decide)
  exact ⟨h.2.1, h.1⟩

lemma isEscDebate_improve (ns : List String) (t p : String) :
    isEscDebate (Event.debateEv ns (improveReq t p)) = true := rfl

lemma isEscDebate_user (ns : List String) (t : String) :
    isEscDebate (Event.debateEv ns (userReq t)) = false := rfl

lemma isEscDebate_judge (c : List Candidate) :
    isEscDebate (Event.judgeEv c) = false := rfl

lemma isEscDebate_verify (a : String) (m : Meta) :
    isEscDebate (Event.verifyEv a m) = false := rfl

lemma judgePhase_no_esc (env : Env) (task : String) (cand : List Candidate) :
    ∀ ev ∈ (judgePhase env task cand).2, isEscDebate ev = false := by
  unfold judgePhase
  split
  · intro ev h
    simp at h
  · split
    · intro ev h
      simp at h
      subst h
      rfl
    · intro ev h
      simp at h
      subst h
      rfl

lemma round1_no_esc (env : Env) (task : String) (step : PlanStep)
    (st : OrchState) :
    ∀ ev ∈ (round1 env task step st).2, isEscDebate ev = false := by
  cases hdeb : Debate.run env.invoke
      (st.router.pick_k step.skill step.k_models step.tier_hint).1
      (userReq task) with
  | error e =>
    simp only [round1, hdeb]
    intro ev h
    simp at h
    subst h
    exact isEscDebate_user _ _
  | ok cand0 =>
    cases hadm : admitPhase st.budget cand0 with
    | none =>
      simp only [round1, hdeb, hadm]
      intro ev h
      simp at h
      subst h
      exact isEscDebate_user _ _
    | some triple =>
      obtain ⟨cand, step_cost, step_lat⟩ := triple
      have hjpev := judgePhase_no_esc env task cand
      rcases hjp : judgePhase env task cand with ⟨res, evJ⟩
      rw [hjp] at hjpev
      cases res with
      | error e =>
        simp only [round1, hdeb, hadm, hjp]
        intro ev h
        rcases List.mem_cons.mp h with h | h
        · subst h; exact isEscDebate_user _ _
        · exact hjpev ev h
      | ok im =>
        obtain ⟨j_idx, j_meta⟩ := im
        cases hpy : pyIndex cand j_idx with
        | none =>
          simp only [round1, hdeb, hadm, hjp, hpy]
          intro ev h
          rcases List.mem_cons.mp h with h | h
          · subst h; exact isEscDebate_user _ _
          · exact hjpev ev h
        | some chosen =>
          cases hver : env.verify task chosen.text
              [("skill", MetaVal.str step.skill)] with
          | error e =>
            simp only [round1, hdeb, hadm, hjp, hpy, hver]
            intro ev h
            rcases List.mem_cons.mp h with h | h
            · subst h; exact isEscDebate_user _ _
            · rcases List.mem_append.mp h with h | h
              · exact hjpev ev h
              · simp at h
                subst h
                exact isEscDebate_verify _ _
          | ok bm =>
            obtain ⟨ok1, v_meta⟩ := bm
            simp only [round1, hdeb, hadm, hjp, hpy, hver]
            intro ev h
            rcases List.mem_cons.mp h with h | h
            · subst h; exact isEscDebate_user _ _
            · rcases List.mem_append.mp h with h | h
              · exact hjpev ev h
              · simp at h
                subst h
                exact isEscDebate_verify _ _

lemma round1_countP_zero (env : Env) (task : String) (step : PlanStep)
    (st : OrchState) :
    ((round1 env task step st).2).countP isEscDebate = 0 := by
  rw [List.countP_eq_zero]
  intro ev hev
  simp [round1_no_esc env task step st ev hev]

lemma escalate_events_shape (env : Env) (task : String) (step : PlanStep)
    (r1 : Round1) (b : Budget) (tc tl : ℚ) :
    ((maxTierOf env.adapters r1.names).isOk = false
      ∧ (escalate env task step r1 b tc tl).2 = []) ∨
    (∃ ns evs, (escalate env task step r1 b tc tl).2
        = Event.debateEv ns (improveReq task r1.chosen.text) :: evs ∧
      ∀ ev ∈ evs, isEscDebate ev = false) := by
  cases hmt : maxTierOf env.adapters r1.names with
  | error e =>
    left
    constructor
    · rfl
    · simp only [escalate, hmt]
  | ok mt =>
    right
    cases hdeb : Debate.run env.invoke
        (r1.router1.pick_k step.skill 1 (some (mt + 1))).1
        (improveReq task r1.chosen.text) with
    | error e =>
      refine ⟨(r1.router1.pick_k step.skill 1 (some (mt + 1))).1, [], ?_, by simp⟩
      simp only [escalate, hmt, hdeb]
    | ok cand2 =>
      cases hjud : env.judgePick task (r1.chosen :: cand2) with
      | error e =>
        refine ⟨(r1.router1.pick_k step.skill 1 (some (mt + 1))).1,
          [Event.judgeEv (r1.chosen :: cand2)], ?_, ?_⟩
        · simp only [escalate, hmt, hdeb, hjud]
        · intro ev h
          simp at h
          subst h
          rfl
      | ok im =>
        obtain ⟨j2, jm2⟩ := im
        cases hpy : pyIndex (r1.chosen :: cand2) j2 with
        | none =>
          refine ⟨(r1.router1.pick_k step.skill 1 (some (mt + 1))).1,
            [Event.judgeEv (r1.chosen :: cand2)], ?_, ?_⟩
          · simp only [escalate, hmt, hdeb, hjud, hpy]
          · intro ev h
            simp at h
            subst h
            rfl
        | some chosen2 =>
          cases hver : env.verify task chosen2.text
              [("skill", MetaVal.str step.skill), ("round", MetaVal.int 2)] with
          | error e =>
            refine ⟨(r1.router1.pick_k step.skill 1 (some (mt + 1))).1,
              [Event.judgeEv (r1.chosen :: cand2),
              Event.verifyEv chosen2.text
                [("skill", MetaVal.str step.skill), ("round", MetaVal.int 2)]], ?_, ?_⟩
            · simp only [escalate, hmt, hdeb, hjud, hpy, hver]
            · intro ev h
              simp at h
              rcases h with h | h <;> subst h <;> rfl
          | ok bm =>
            obtain ⟨ok2, vm2⟩ := bm
            refine ⟨(r1.router1.pick_k step.skill 1 (some (mt + 1))).1,
              [Event.judgeEv (r1.chosen :: cand2),
              Event.verifyEv chosen2.text
                [("skill", MetaVal.str step.skill), ("round", MetaVal.int 2)]], ?_, ?_⟩
            · simp only [escalate, hmt, hdeb, hjud, hpy, hver]
            · intro ev h
              simp at h
              rcases h with h | h <;> subst h <;> rfl

lemma escalate_countP_le_one (env : Env) (task : String) (step : PlanStep)
    (r1 : Round1) (b : Budget) (tc tl : ℚ) :
    ((escalate env task step r1 b tc tl).2).countP isEscDebate ≤ 1 := by
  rcases escalate_events_shape env task step r1 b tc tl with ⟨_, h⟩ | ⟨ns, evs, h, hz⟩
  · rw [h]; simp
  · rw [h, List.countP_cons]
    have : evs.countP isEscDebate = 0 := by
      rw [List.countP_eq_zero]
      intro ev hev
      simp [hz ev hev]
    rw [this]
    simp [isEscDebate_improve]

lemma escalate_countP_one (env : Env) (task : String) (step : PlanStep)
    (r1 : Round1) (b : Budget) (tc tl : ℚ)
    (hmax : ((maxTierOf env.adapters r1.names).isOk) = true) :
    ((escalate env task step r1 b tc tl).2).countP isEscDebate = 1 := by
  rcases escalate_events_shape env task step r1 b tc tl with ⟨hbad, _⟩ | ⟨ns, evs, h, hz⟩
  · rw [hmax] at hbad
    cases hbad
  · rw [h, List.countP_cons]
    have : evs.countP isEscDebate = 0 := by
      rw [List.countP_eq_zero]
      intro ev hev
      simp [hz ev hev]
    rw [this]
    simp [isEscDebate_improve]

lemma runStep_events (env : Env) (task : String) (si : ℕ) (step : PlanStep)
    (st : OrchState) (r1 : Round1) (evs1 : List Event)
    (h1 : round1 env task step st = (Except.ok r1, evs1)) :
    (runStep env task si step st).2
      = if r1.ok1 = false ∧ 0 < step.max_rounds
            ∧ 0 < (st.budget.charge r1.step_cost).usd_left
        then evs1 ++ (escalate env task step r1 (st.budget.charge r1.step_cost)
          (st.total_cost + r1.step_cost) (st.total_lat + r1.step_lat)).2
        else evs1 := by
  simp only [runStep, h1]
  split
  · rename_i hcond
    split
    · rename_i e evs2 hesc
      rw [hesc]
    · rename_i esc evs2 hesc
      rw [hesc]
      split <;> rfl
  · rename_i hcond
    split <;> rfl

lemma runStep_countP_le_one (env : Env) (task : String) (si : ℕ)
    (step : PlanStep) (st : OrchState) :
    ((runStep env task si step st).2).countP isEscDebate ≤ 1 := by
  rcases hr : round1 env task step st with ⟨res, evs⟩
  rcases res with e | r1
  · have : (runStep env task si step st).2 = evs := by
      simp only [runStep, hr]
    rw [this]
    have hz : evs.countP isEscDebate = 0 := by
      have := round1_countP_zero env task step st
      rw [hr] at this
      exact this
    omega
  · rw [runStep_events env task si step st r1 evs hr]
    have hz : evs.countP isEscDebate = 0 := by
      have := round1_countP_zero env task step st
      rw [hr] at this
      exact this
    split
    · rw [List.countP_append, hz]
      have := escalate_countP_le_one env task step r1
        (st.budget.charge r1.step_cost)
        (st.total_cost + r1.step_cost) (st.total_lat + r1.step_lat)
      omega
    · omega

lemma minCostCand_spec (c : Candidate) (cs : List Candidate) :
    ∃ m, minCostCand (c :: cs) = some m ∧ m ∈ c :: cs ∧
      ∀ x ∈ c :: cs, m.cost_usd ≤ x.cost_usd := by
  suffices h : ∀ (cs : List Candidate) (c : Candidate),
      (cs.foldl (fun best x => if x.cost_usd < best.cost_usd then x else best) c)
        ∈ c :: cs ∧
      ∀ x ∈ c :: cs,
        (cs.foldl (fun best x => if x.cost_usd < best.cost_usd then x else best) c).cost_usd
          ≤ x.cost_usd by
    obtain ⟨hm, hb⟩ := h cs c
    exact ⟨_, rfl, hm, hb⟩
  intro cs
  induction cs with
  | nil =>
    intro c
    refine ⟨List.mem_singleton.mpr rfl, ?_⟩
    intro x hx
    rw [List.mem_singleton] at hx
    subst hx
    exact le_refl _
  | cons y ys ih =>
    intro c
    have hstep : (y :: ys).foldl
        (fun best x => if x.cost_usd < best.cost_usd then x else best) c
        = ys.foldl (fun best x => if x.cost_usd < best.cost_usd then x else best)
            (if y.cost_usd < c.cost_usd then y else c) := rfl
    obtain ⟨hm, hb⟩ := ih (if y.cost_usd < c.cost_usd then y else c)
    constructor
    · rw [hstep]
      by_cases hy : y.cost_usd < c.cost_usd
      · rw [if_pos hy] at hm ⊢
        rcases List.mem_cons.mp hm with h | h
        · rw [h]
          exact List.mem_cons_of_mem c (List.mem_cons_self y ys)
        · exact List.mem_cons_of_mem c (List.mem_cons_of_mem y h)
      · rw [if_neg hy] at hm ⊢
        rcases List.mem_cons.mp hm with h | h
        · rw [h]
          exact List.mem_cons_self c (y :: ys)
        · exact List.mem_cons_of_mem c (List.mem_cons_of_mem y h)
    · intro x hx
      rw [hstep]
      have hmin : ((if y.cost_usd < c.cost_usd then y else c) :: ys).foldl
          (fun best x => if x.cost_usd < best.cost_usd then x else best)
          (if y.cost_usd < c.cost_usd then y else c)
          = ys.foldl (fun best x => if x.cost_usd < best.cost_usd then x else best)
              (if (if y.cost_usd < c.cost_usd then y else c).cost_usd
                  < (if y.cost_usd < c.cost_usd then y else c).cost_usd
                then (if y.cost_usd < c.cost_usd then y else c)
                else (if y.cost_usd < c.cost_usd then y else c)) := rfl
      have hlec : (if y.cost_usd < c.cost_usd then y else c).cost_usd ≤ c.cost_usd := by
        by_cases hy : y.cost_usd < c.cost_usd
        · rw [if_pos hy]; exact le_of_lt hy
        · rw [if_neg hy]
      have hley : (if y.cost_usd < c.cost_usd then y else c).cost_usd ≤ y.cost_usd := by
        by_cases hy : y.cost_usd < c.cost_usd
        · rw [if_pos hy]
        · rw [if_neg hy]; exact le_of_not_lt hy
      have hroot := hb (if y.cost_usd < c.cost_usd then y else c)
        (List.mem_cons_self _ ys)
      rcases List.mem_cons.mp hx with h | h
      · subst h
        exact le_trans hroot hlec
      · rcases List.mem_cons.mp h with h | h
        · subst h
          exact le_trans hroot hley
        · exact hb x (List.mem_cons_of_mem _ h)

lemma admitPhase_allow_true (b : Budget) (cand : List Candidate)
    (h : b.allow (sumCosts cand) (maxLat cand) = true) :
    admitPhase b cand = some (cand, sumCosts cand, maxLat cand) := by
  unfold admitPhase
  rw [if_pos h]

lemma admitPhase_allow_false (b : Budget) (cand : List Candidate)
    (h : b.allow (sumCosts cand) (maxLat cand) = false) (hne : cand ≠ []) :
    ∃ c, c ∈ cand ∧ (∀ x ∈ cand, c.cost_usd ≤ x.cost_usd) ∧
      admitPhase b cand = some ([c], c.cost_usd, c.latency_s) := by
  rcases cand with _ | ⟨c, cs⟩
  · exact absurd rfl hne
  · obtain ⟨m, hm, hmem, hb⟩ := minCostCand_spec c cs
    refine ⟨m, hmem, hb, ?_⟩
    simp only [admitPhase, h, Bool.false_eq_true, if_false, hm, Option.map_some']

lemma admitPhase_cost_eq (b : Budget) (cand0 cand : List Candidate) (sc sl : ℚ)
    (h : admitPhase b cand0 = some (cand, sc, sl)) : sc = sumCosts cand := by
  simp only [admitPhase] at h
  split at h
  · simp only [Option.some.injEq, Prod.mk.injEq] at h
    obtain ⟨hc, hs, _⟩ := h
    rw [← hc, ← hs]
  · rcases hmin : minCostCand cand0 with _ | m
    · rw [hmin] at h
      simp at h
    · rw [hmin] at h
      simp only [Option.map_some', Option.some.injEq, Prod.mk.injEq] at h
      obtain ⟨hc, hs, _⟩ := h
      rw [← hc, ← hs]
      simp [sumCosts]

lemma round1_fields (env : Env) (task : String) (step : PlanStep)
    (st : OrchState) (r1 : Round1) (evs1 : List Event)
    (h1 : round1 env task step st = (Except.ok r1, evs1)) :
    r1.names = (st.router.pick_k step.skill step.k_models step.tier_hint).1 ∧
    r1.router1 = (st.router.pick_k step.skill step.k_models step.tier_hint).2 ∧
    (∃ cand0, Debate.run env.invoke
        (st.router.pick_k step.skill step.k_models step.tier_hint).1
        (userReq task) = Except.ok cand0 ∧
      admitPhase st.budget cand0 = some (r1.cand, r1.step_cost, r1.step_lat)) ∧
    r1.step_cost = sumCosts r1.cand := by
  cases hdeb : Debate.run env.invoke
      (st.router.pick_k step.skill step.k_models step.tier_hint).1
      (userReq task) with
  | error e =>
    simp only [round1, hdeb] at h1
    simp at h1
  | ok cand0 =>
    cases hadm : admitPhase st.budget cand0 with
    | none =>
      simp only [round1, hdeb, hadm] at h1
      simp at h1
    | some triple =>
      obtain ⟨cand, step_cost, step_lat⟩ := triple
      rcases hjp : judgePhase env task cand with ⟨res, evJ⟩
      cases res with
      | error e =>
        simp only [round1, hdeb, hadm, hjp] at h1
        simp at h1
      | ok im =>
        obtain ⟨j_idx, j_meta⟩ := im
        cases hpy : pyIndex cand j_idx with
        | none =>
          simp only [round1, hdeb, hadm, hjp, hpy] at h1
          simp at h1
        | some chosen =>
          cases hver : env.verify task chosen.text
              [("skill", MetaVal.str step.skill)] with
          | error e =>
            simp only [round1, hdeb, hadm, hjp, hpy, hver] at h1
            simp at h1
          | ok bm =>
            obtain ⟨ok1, v_meta⟩ := bm
            simp only [round1, hdeb, hadm, hjp, hpy, hver, Prod.mk.injEq,
              Except.ok.injEq] at h1
            obtain ⟨hr1, _⟩ := h1
            subst hr1
            exact ⟨rfl, rfl, ⟨cand0, rfl, hadm⟩,
              admitPhase_cost_eq st.budget cand0 cand step_cost step_lat hadm⟩

lemma escalate_ok_fields (env : Env) (task : String) (step : PlanStep)
    (r1 : Round1) (b : Budget) (tc tl : ℚ) (esc : EscOut) (evs2 : List Event)
    (h : escalate env task step r1 b tc tl = (Except.ok esc, evs2)) :
    esc.total_cost = tc + sumCosts esc.cand2 ∧
    esc.total_lat = tl + maxLat esc.cand2 ∧
    esc.budget = b.charge (sumCosts esc.cand2) := by
  cases hmt : maxTierOf env.adapters r1.names with
  | error e =>
    simp only [escalate, hmt] at h
    simp at h
  | ok mt =>
    cases hdeb : Debate.run env.invoke
        (r1.router1.pick_k step.skill 1 (some (mt + 1))).1
        (improveReq task r1.chosen.text) with
    | error e =>
      simp only [escalate, hmt, hdeb] at h
      simp at h
    | ok cand2 =>
      cases hjud : env.judgePick task (r1.chosen :: cand2) with
      | error e =>
        simp only [escalate, hmt, hdeb, hjud] at h
        simp at h
      | ok im =>
        obtain ⟨j2, jm2⟩ := im
        cases hpy : pyIndex (r1.chosen :: cand2) j2 with
        | none =>
          simp only [escalate, hmt, hdeb, hjud, hpy] at h
          simp at h
        | some chosen2 =>
          cases hver : env.verify task chosen2.text
              [("skill", MetaVal.str step.skill), ("round", MetaVal.int 2)] with
          | error e =>
            simp only [escalate, hmt, hdeb, hjud, hpy, hver] at h
            simp at h
          | ok bm =>
            obtain ⟨ok2, vm2⟩ := bm
            simp only [escalate, hmt, hdeb, hjud, hpy, hver, Prod.mk.injEq,
              Except.ok.injEq] at h
            obtain ⟨hesc, _⟩ := h
            subst hesc
            exact ⟨rfl, rfl, rfl⟩

/-- C1: with a completed first round, an escalation round is attempted
(exactly one improve fan-out appears among the loop's calls) iff that
round's verification rejected AND `step.max_rounds > 0` AND the remaining
budget after the step charge is positive; at most one escalation fan-out
ever occurs in any step, whatever the outcome; and when the escalation
round completes, the accumulated `total_cost` includes both the step's
candidates' costs and the escalation-round candidates' costs. -/
theorem escalation_iff_and_cost (env : Env) (task : String) (si : ℕ)
    (step : PlanStep) (st : OrchState) (r1 : Round1) (evs1 : List Event)
    (h1 : round1 env task step st = (Except.ok r1, evs1))
    (hmax : (maxTierOf env.adapters r1.names).isOk = true) :
    (∀ (env2 : Env) (task2 : String) (si2 : ℕ) (step2 : PlanStep)
       (st2 : OrchState),
      ((runStep env2 task2 si2 step2 st2).2).countP isEscDebate ≤ 1) ∧
    (((runStep env task si step st).2).countP isEscDebate
      = if r1.ok1 = false ∧ 0 < step.max_rounds
            ∧ 0 < (st.budget.charge r1.step_cost).usd_left
        then 1 else 0) ∧
    (∀ (esc : EscOut) (evs2 : List Event) (stf : OrchState) (evsf : List Event),
      (r1.ok1 = false ∧ 0 < step.max_rounds
        ∧ 0 < (st.budget.charge r1.step_cost).usd_left) →
      escalate env task step r1 (st.budget.charge r1.step_cost)
        (st.total_cost + r1.step_cost) (st.total_lat + r1.step_lat)
        = (Except.ok esc, evs2) →
      runStep env task si step st = (Except.ok stf, evsf) →
      stf.total_cost = st.total_cost + sumCosts r1.cand + sumCosts esc.cand2) := by
  have hz : evs1.countP isEscDebate = 0 := by
    have h := round1_countP_zero env task step st
    rw [h1] at h
    exact h
  refine ⟨fun env2 task2 si2 step2 st2 => runStep_countP_le_one env2 task2 si2 step2 st2,
          ?_, ?_⟩
  · rw [runStep_events env task si step st r1 evs1 h1]
    by_cases hc : r1.ok1 = false ∧ 0 < step.max_rounds
        ∧ 0 < (st.budget.charge r1.step_cost).usd_left
    · rw [if_pos hc, if_pos hc, List.countP_append, hz,
        escalate_countP_one env task step r1 _ _ _ hmax]
    · rw [if_neg hc, if_neg hc, hz]
  · intro esc evs2 stf evsf hcond hesc hrun
    simp only [runStep, h1] at hrun
    rw [if_pos hcond, hesc] at hrun
    cases hupd : esc.router.update esc.chosen.model
        (if esc.verified then 1 else 0) esc.chosen.cost_usd with
    | none =>
      simp only [hupd] at hrun
      simp at hrun
    | some routerF =>
      simp only [hupd, Prod.mk.injEq, Except.ok.injEq] at hrun
      obtain ⟨hstf, _⟩ := hrun
      subst hstf
      have hc1 := (escalate_ok_fields env task step r1 _ _ _ esc evs2 hesc).1
      have hc2 := (round1_fields env task step st r1 evs1 h1).2.2.2
      show esc.total_cost = st.total_cost + sumCosts r1.cand + sumCosts esc.cand2
      rw [hc1, hc2]

/-- C2: in the ADMIT phase, step cost is the sum of the candidates' costs
and step latency the max of their latencies; when `Budget.allow` accepts,
the candidate set is kept unchanged, and when it rejects, the set is
trimmed to exactly one candidate of minimal cost with cost/latency
recomputed from it; the values a completed first round carries are exactly
this phase's output; and after a step completes without escalation the
budget has been charged exactly the (possibly trimmed) step cost, while in
general the charge is the step cost plus whatever an escalation round
charged on top. -/
theorem admitPhase_trim_and_charge :
    (∀ (b : Budget) (cand : List Candidate),
      b.allow (sumCosts cand) (maxLat cand) = true →
      admitPhase b cand = some (cand, sumCosts cand, maxLat cand)) ∧
    (∀ (b : Budget) (cand : List Candidate),
      b.allow (sumCosts cand) (maxLat cand) = false → cand ≠ [] →
      ∃ c, c ∈ cand ∧ (∀ x ∈ cand, c.cost_usd ≤ x.cost_usd) ∧
        admitPhase b cand = some ([c], c.cost_usd, c.latency_s)) ∧
    (∀ (env : Env) (task : String) (step : PlanStep) (st : OrchState)
       (r1 : Round1) (evs1 : List Event),
      round1 env task step st = (Except.ok r1, evs1) →
      ∃ cand0, Debate.run env.invoke
          (st.router.pick_k step.skill step.k_models step.tier_hint).1
          (userReq task) = Except.ok cand0 ∧
        admitPhase st.budget cand0 = some (r1.cand, r1.step_cost, r1.step_lat)) ∧
    (∀ (env : Env) (task : String) (si : ℕ) (step : PlanStep) (st : OrchState)
       (r1 : Round1) (evs1 : List Event) (stf : OrchState) (evsf : List Event),
      round1 env task step st = (Except.ok r1, evs1) →
      runStep env task si step st = (Except.ok stf, evsf) →
      ∃ q, stf.budget.usd_left = st.budget.usd_left - r1.step_cost - q ∧
        (¬(r1.ok1 = false ∧ 0 < step.max_rounds
            ∧ 0 < (st.budget.charge r1.step_cost).usd_left) → q = 0)) := by
  refine ⟨admitPhase_allow_true, admitPhase_allow_false, ?_, ?_⟩
  · intro env task step st r1 evs1 h1
    exact (round1_fields env task step st r1 evs1 h1).2.2.1
  · intro env task si step st r1 evs1 stf evsf h1 hrun
    simp only [runStep, h1] at hrun
    by_cases hc : r1.ok1 = false ∧ 0 < step.max_rounds
        ∧ 0 < (st.budget.charge r1.step_cost).usd_left
    · rw [if_pos hc] at hrun
      rcases hesc : escalate env task step r1 (st.budget.charge r1.step_cost)
          (st.total_cost + r1.step_cost) (st.total_lat + r1.step_lat)
        with ⟨res, evs2⟩
      cases res with
      | error e =>
        rw [hesc] at hrun
        simp at hrun
      | ok esc =>
        rw [hesc] at hrun
        cases hupd : esc.router.update esc.chosen.model
            (if esc.verified then 1 else 0) esc.chosen.cost_usd with
        | none =>
          simp only [hupd] at hrun
          simp at hrun
        | some routerF =>
          simp only [hupd, Prod.mk.injEq, Except.ok.injEq] at hrun
          obtain ⟨hstf, _⟩ := hrun
          subst hstf
          refine ⟨sumCosts esc.cand2, ?_, fun hnc => absurd hc hnc⟩
          have hb := (escalate_ok_fields env task step r1 _ _ _ esc evs2 hesc).2.2
          show esc.budget.usd_left = _
          rw [hb]
          show (st.budget.charge r1.step_cost).usd_left - sumCosts esc.cand2 = _
          show st.budget.usd_left - r1.step_cost - sumCosts esc.cand2 = _
          rfl
    · rw [if_neg hc] at hrun
      cases hupd : r1.router1.update r1.chosen.model
          (if r1.ok1 then 1 else 0) r1.chosen.cost_usd with
      | none =>
        simp only [hupd] at hrun
        simp at hrun
      | some routerF =>
        simp only [hupd, Prod.mk.injEq, Except.ok.injEq] at hrun
        obtain ⟨hstf, _⟩ := hrun
        subst hstf
        refine ⟨0, ?_, fun _ => rfl⟩
        show (st.budget.charge r1.step_cost).usd_left = _
        show st.budget.usd_left - r1.step_cost = _
        ring

/-- C3: every completed step appends exactly one `StepTrace` that records
the initial routed worker list (`chosen_models`), the post-admission
candidate set of the first round (`candidates`), and the first-round judge
index (`chosen_idx`) — also when an escalation round replaced the chosen
candidate, so `chosen_idx` keeps addressing the pre-escalation list and
never points at an escalated candidate, while `verified` and the metadata
do reflect the escalation outcome; and a finished run reads `final_text`
from the last `StepTrace`'s candidate list at its `chosen_idx`. -/
theorem trace_records_first_round (env : Env) (task : String) (si : ℕ)
    (step : PlanStep) (st : OrchState) (r1 : Round1) (evs1 : List Event)
    (h1 : round1 env task step st = (Except.ok r1, evs1)) :
    (∀ (stf : OrchState) (evsf : List Event),
      runStep env task si step st = (Except.ok stf, evsf) →
      ∃ tr, stf.traces = st.traces ++ [tr] ∧ tr.step_idx = si ∧
        tr.skill = step.skill ∧ tr.chosen_models = r1.names ∧
        tr.candidates = r1.cand ∧ tr.chosen_idx = r1.j_idx ∧
        (¬(r1.ok1 = false ∧ 0 < step.max_rounds
            ∧ 0 < (st.budget.charge r1.step_cost).usd_left) →
          tr.verified = r1.ok1 ∧ tr.judge_meta = r1.j_meta
            ∧ tr.verifier_meta = r1.v_meta) ∧
        (∀ (esc : EscOut) (evs2 : List Event),
          (r1.ok1 = false ∧ 0 < step.max_rounds
            ∧ 0 < (st.budget.charge r1.step_cost).usd_left) →
          escalate env task step r1 (st.budget.charge r1.step_cost)
            (st.total_cost + r1.step_cost) (st.total_lat + r1.step_lat)
            = (Except.ok esc, evs2) →
          tr.verified = esc.verified ∧ tr.judge_meta = esc.j_meta
            ∧ tr.verifier_meta = esc.v_meta)) ∧
    (∀ (env2 : Env) (task2 : String) (plan : Plan) (router : Router)
       (rt : RunTrace) (evsr : List Event),
      Orchestrator.run env2 task2 plan router = (Except.ok rt, evsr) →
      (rt.steps = [] ∧ rt.final_text = "") ∨
      (∃ t c, rt.steps.getLast? = some t ∧
        pyIndex t.candidates t.chosen_idx = some c ∧ rt.final_text = c.text)) := by
  constructor
  · intro stf evsf hrun
    simp only [runStep, h1] at hrun
    by_cases hc : r1.ok1 = false ∧ 0 < step.max_rounds
        ∧ 0 < (st.budget.charge r1.step_cost).usd_left
    · rw [if_pos hc] at hrun
      rcases hesc : escalate env task step r1 (st.budget.charge r1.step_cost)
          (st.total_cost + r1.step_cost) (st.total_lat + r1.step_lat)
        with ⟨res, evs2⟩
      cases res with
      | error e =>
        rw [hesc] at hrun
        simp at hrun
      | ok esc =>
        rw [hesc] at hrun
        cases hupd : esc.router.update esc.chosen.model
            (if esc.verified then 1 else 0) esc.chosen.cost_usd with
        | none =>
          simp only [hupd] at hrun
          simp at hrun
        | some routerF =>
          simp only [hupd, Prod.mk.injEq, Except.ok.injEq] at hrun
          obtain ⟨hstf, _⟩ := hrun
          subst hstf
          refine ⟨⟨si, step.skill, r1.names, r1.cand, r1.j_idx,
            esc.j_meta, esc.verified, esc.v_meta⟩, rfl, rfl, rfl, rfl, rfl, rfl,
            fun hnc => absurd hc hnc, ?_⟩
          intro esc2 evs2b _ hesc2
          simp only [Prod.mk.injEq, Except.ok.injEq] at hesc2
          obtain ⟨h3, _⟩ := hesc2
          subst h3
          exact ⟨rfl, rfl, rfl⟩
    · rw [if_neg hc] at hrun
      cases hupd : r1.router1.update r1.chosen.model
          (if r1.ok1 then 1 else 0) r1.chosen.cost_usd with
      | none =>
        simp only [hupd] at hrun
        simp at hrun
      | some routerF =>
        simp only [hupd, Prod.mk.injEq, Except.ok.injEq] at hrun
        obtain ⟨hstf, _⟩ := hrun
        subst hstf
        exact ⟨⟨si, step.skill, r1.names, r1.cand, r1.j_idx,
          r1.j_meta, r1.ok1, r1.v_meta⟩, rfl, rfl, rfl, rfl, rfl, rfl,
          fun _ => ⟨rfl, rfl, rfl⟩, fun esc2 evs2b hcc _ => absurd hcc hc⟩
  · intro env2 task2 plan router rt evsr hrun
    rcases hrs : runSteps env2 task2 plan.steps 0
        ⟨⟨plan.hard_budget_usd, plan.hard_latency_s⟩, router, 0, 0, []⟩
      with ⟨res, evs⟩
    cases res with
    | error e =>
      simp only [Orchestrator.run, hrs] at hrun
      simp at hrun
    | ok stf =>
      simp only [Orchestrator.run, hrs] at hrun
      cases hft : finalTextOf stf.traces with
      | error e =>
        rw [hft] at hrun
        simp at hrun
      | ok ft =>
        rw [hft] at hrun
        simp only [Prod.mk.injEq, Except.ok.injEq] at hrun
        obtain ⟨hrt, _⟩ := hrun
        subst hrt
        unfold finalTextOf at hft
        cases hlast : stf.traces.getLast? with
        | none =>
          simp only [hlast, Except.ok.injEq] at hft
          left
          constructor
          · show stf.traces = []
            exact List.getLast?_eq_none_iff.mp hlast
          · show ft = ""
            rw [← hft]
        | some t =>
          simp only [hlast] at hft
          cases hpy : pyIndex t.candidates t.chosen_idx with
          | none =>
            simp only [hpy] at hft
            simp at hft
          | some c =>
            simp only [hpy, Except.ok.injEq] at hft
            right
            exact ⟨t, c, rfl, hpy, hft.symm⟩

lemma debate_run_error (invoke : String → CallRequest → Except OrchErr CallResult)
    (req : CallRequest) :
    ∀ names : List String,
      (∃ n ∈ names, exceptFailed (invoke n req) = true) →
      exceptFailed (Debate.run invoke names req) = true := by
  intro names
  induction names with
  | nil =>
    rintro ⟨n, hn, _⟩
    simp at hn
  | cons m tl ih =>
    rintro ⟨n, hn, herr⟩
    cases him : invoke m req with
    | error e =>
      have hrun : Debate.run invoke (m :: tl) req = Except.error e := by
        show (m :: tl).mapM (fun x => (invoke x req).map (candOf x)) = _
        rw [List.mapM_cons]
        have hmap : (invoke m req).map (candOf m) = Except.error e := by
          rw [him]; rfl
        rw [hmap]
        rfl
      rw [hrun]
      rfl
    | ok r =>
      rcases List.mem_cons.mp hn with hh | hh
      · subst hh
        rw [him] at herr
        simp [exceptFailed] at herr
      · have htl := ih ⟨n, hh, herr⟩
        cases hmm : Debate.run invoke tl req with
        | error e2 =>
          have hmm2 : tl.mapM (fun x => (invoke x req).map (candOf x))
              = Except.error e2 := hmm
          have hrun : Debate.run invoke (m :: tl) req = Except.error e2 := by
            show (m :: tl).mapM (fun x => (invoke x req).map (candOf x)) = _
            rw [List.mapM_cons]
            have hmap : (invoke m req).map (candOf m) = Except.ok (candOf m r) := by
              rw [him]; rfl
            rw [hmap, hmm2]
            rfl
          rw [hrun]
          rfl
        | ok l =>
          rw [hmm] at htl
          simp [exceptFailed] at htl

/-- C8: no failure is locally recovered in the core loop.  A failing worker
invocation anywhere in a fan-out fails the whole fan-out; a failed fan-out,
a failed judge call, or a failed verifier call each fail the first round;
a failed first round fails the step; a failed step fails the step loop; a
failed step loop makes the whole run return the error — no partial
`RunTrace` value exists on that path; and the same holds inside the
escalation round: a failed escalation round fails the step, and a failed
improve fan-out, a failed re-judge call, or a failed re-verify call each
fail the escalation round. -/
theorem failures_abort_run :
    (∀ (invoke : String → CallRequest → Except OrchErr CallResult)
       (names : List String) (req : CallRequest),
      (∃ n ∈ names, exceptFailed (invoke n req) = true) →
      exceptFailed (Debate.run invoke names req) = true) ∧
    (∀ (env : Env) (task : String) (step : PlanStep) (st : OrchState)
       (e : OrchErr),
      Debate.run env.invoke
        (st.router.pick_k step.skill step.k_models step.tier_hint).1
        (userReq task) = Except.error e →
      (round1 env task step st).1 = Except.error e) ∧
    (∀ (env : Env) (task : String) (step : PlanStep) (st : OrchState)
       (cand0 cand : List Candidate) (sc sl : ℚ) (e : OrchErr),
      Debate.run env.invoke
        (st.router.pick_k step.skill step.k_models step.tier_hint).1
        (userReq task) = Except.ok cand0 →
      admitPhase st.budget cand0 = some (cand, sc, sl) →
      cand.length ≠ 1 →
      env.judgePick task cand = Except.error e →
      (round1 env task step st).1 = Except.error e) ∧
    (∀ (env : Env) (task : String) (step : PlanStep) (st : OrchState)
       (cand0 cand : List Candidate) (sc sl : ℚ) (j : ℤ) (m : Meta)
       (evJ : List Event) (chosen : Candidate) (e : OrchErr),
      Debate.run env.invoke
        (st.router.pick_k step.skill step.k_models step.tier_hint).1
        (userReq task) = Except.ok cand0 →
      admitPhase st.budget cand0 = some (cand, sc, sl) →
      judgePhase env task cand = (Except.ok (j, m), evJ) →
      pyIndex cand j = some chosen →
      env.verify task chosen.text [("skill", MetaVal.str step.skill)]
        = Except.error e →
      (round1 env task step st).1 = Except.error e) ∧
    (∀ (env : Env) (task : String) (si : ℕ) (step : PlanStep) (st : OrchState)
       (e : OrchErr),
      (round1 env task step st).1 = Except.error e →
      (runStep env task si step st).1 = Except.error e) ∧
    (∀ (env : Env) (task : String) (s : PlanStep) (rest : List PlanStep)
       (si : ℕ) (st : OrchState) (e : OrchErr),
      (runStep env task si s st).1 = Except.error e →
      (runSteps env task (s :: rest) si st).1 = Except.error e) ∧
    (∀ (env : Env) (task : String) (plan : Plan) (router : Router)
       (e : OrchErr),
      (runSteps env task plan.steps 0
        ⟨⟨plan.hard_budget_usd, plan.hard_latency_s⟩, router, 0, 0, []⟩).1
        = Except.error e →
      (Orchestrator.run env task plan router).1 = Except.error e) ∧
    (∀ (env : Env) (task : String) (si : ℕ) (step : PlanStep) (st : OrchState)
       (r1 : Round1) (evs1 : List Event) (e : OrchErr),
      round1 env task step st = (Except.ok r1, evs1) →
      (r1.ok1 = false ∧ 0 < step.max_rounds
        ∧ 0 < (st.budget.charge r1.step_cost).usd_left) →
      (escalate env task step r1 (st.budget.charge r1.step_cost)
        (st.total_cost + r1.step_cost) (st.total_lat + r1.step_lat)).1
        = Except.error e →
      (runStep env task si step st).1 = Except.error e) ∧
    (∀ (env : Env) (task : String) (step : PlanStep) (r1 : Round1)
       (b : Budget) (tc tl : ℚ) (mt : ℤ) (e : OrchErr),
      maxTierOf env.adapters r1.names = Except.ok mt →
      Debate.run env.invoke
        (r1.router1.pick_k step.skill 1 (some (mt + 1))).1
        (improveReq task r1.chosen.text) = Except.error e →
      (escalate env task step r1 b tc tl).1 = Except.error e) ∧
    (∀ (env : Env) (task : String) (step : PlanStep) (r1 : Round1)
       (b : Budget) (tc tl : ℚ) (mt : ℤ) (cand2 : List Candidate)
       (e : OrchErr),
      maxTierOf env.adapters r1.names = Except.ok mt →
      Debate.run env.invoke
        (r1.router1.pick_k step.skill 1 (some (mt + 1))).1
        (improveReq task r1.chosen.text) = Except.ok cand2 →
      env.judgePick task (r1.chosen :: cand2) = Except.error e →
      (escalate env task step r1 b tc tl).1 = Except.error e) ∧
    (∀ (env : Env) (task : String) (step : PlanStep) (r1 : Round1)
       (b : Budget) (tc tl : ℚ) (mt : ℤ) (cand2 : List Candidate)
       (j2 : ℤ) (jm2 : Meta) (chosen2 : Candidate) (e : OrchErr),
      maxTierOf env.adapters r1.names = Except.ok mt →
      Debate.run env.invoke
        (r1.router1.pick_k step.skill 1 (some (mt + 1))).1
        (improveReq task r1.chosen.text) = Except.ok cand2 →
      env.judgePick task (r1.chosen :: cand2) = Except.ok (j2, jm2) →
      pyIndex (r1.chosen :: cand2) j2 = some chosen2 →
      env.verify task chosen2.text
        [("skill", MetaVal.str step.skill), ("round", MetaVal.int 2)]
        = Except.error e →
      (escalate env task step r1 b tc tl).1 = Except.error e) := by
  refine ⟨fun invoke names req h => debate_run_error invoke req names h,
    ?_, ?_, ?_, ?_, ?_, ?_, ?_, ?_, ?_, ?_⟩
  · intro env task step st e hdeb
    simp only [round1, hdeb]
  · intro env task step st cand0 cand sc sl e hdeb hadm hlen hjud
    have hjp : judgePhase env task cand = (Except.error e, [Event.judgeEv cand]) := by
      unfold judgePhase
      rw [if_neg hlen, hjud]
    simp only [round1, hdeb, hadm, hjp]
  · intro env task step st cand0 cand sc sl j m evJ chosen e hdeb hadm hjp hpy hver
    simp only [round1, hdeb, hadm, hjp, hpy, hver]
  · intro env task si step st e h
    rcases hr : round1 env task step st with ⟨res, evs⟩
    have hres : res = Except.error e := by rw [hr] at h; exact h
    subst hres
    simp only [runStep, hr]
  · intro env task s rest si st e h
    rcases hr : runStep env task si s st with ⟨res, evs⟩
    have hres : res = Except.error e := by rw [hr] at h; exact h
    subst hres
    simp only [runSteps, hr]
  · intro env task plan router e h
    rcases hr : runSteps env task plan.steps 0
        ⟨⟨plan.hard_budget_usd, plan.hard_latency_s⟩, router, 0, 0, []⟩
      with ⟨res, evs⟩
    have hres : res = Except.error e := by rw [hr] at h; exact h
    subst hres
    simp only [Orchestrator.run, hr]
  · intro env task si step st r1 evs1 e h1 hcond h
    rcases hesc : escalate env task step r1 (st.budget.charge r1.step_cost)
        (st.total_cost + r1.step_cost) (st.total_lat + r1.step_lat)
      with ⟨res, evs2⟩
    have hres : res = Except.error e := by rw [hesc] at h; exact h
    subst hres
    simp only [runStep, h1]
    rw [if_pos hcond]
    simp only [hesc]
  · intro env task step r1 b tc tl mt e hmt hdeb
    simp only [escalate, hmt, hdeb]
  · intro env task step r1 b tc tl mt cand2 e hmt hdeb hjud
    simp only [escalate, hmt, hdeb, hjud]
  · intro env task step r1 b tc tl mt cand2 j2 jm2 chosen2 e hmt hdeb hjud hpy hver
    simp only [escalate, hmt, hdeb, hjud, hpy, hver]

section

attribute [local semireducible] Rat.add Rat.mul Rat.sub Rat.inv

/-- Witness for C1: in the concrete witness run the verifier rejects round
one, `max_rounds = 1` and budget remains, and exactly one escalation
fan-out happens. -/
theorem escalation_iff_and_cost_witness :
    ((runStep wEnv "t" 0 wStep wSt0).2).countP isEscDebate = 1 := by
  have h := escalation_iff_and_cost wEnv "t" 0 wStep wSt0 wR1
    ((round1 wEnv "t" wStep wSt0).2) (by rfl) (by rfl)
  have hc : wR1.ok1 = false ∧ 0 < wStep.max_rounds
      ∧ 0 < (wSt0.budget.charge wR1.step_cost).usd_left :=
    ⟨by decide, by decide, by decide⟩
  rw [h.2.1, if_pos hc]

/-- Witness for C2: a kept candidate set under a generous budget, a trim
to the cheapest under a tight budget, and the concrete witness step's
admitted values and charge. -/
theorem admitPhase_trim_and_charge_witness :
    admitPhase ⟨1, none⟩ [wc1, wc2] = some ([wc1, wc2], sumCosts [wc1, wc2], maxLat [wc1, wc2]) ∧
    (∃ c, c ∈ [wc1, wc2] ∧ (∀ x ∈ [wc1, wc2], c.cost_usd ≤ x.cost_usd) ∧
      admitPhase ⟨1/1000, none⟩ [wc1, wc2] = some ([c], c.cost_usd, c.latency_s)) ∧
    (∃ cand0, Debate.run wEnv.invoke
        ((wSt0.router.pick_k wStep.skill wStep.k_models wStep.tier_hint).1)
        (userReq "t") = Except.ok cand0 ∧
      admitPhase wSt0.budget cand0 = some (wR1.cand, wR1.step_cost, wR1.step_lat)) ∧
    (∃ q, wStf.budget.usd_left = wSt0.budget.usd_left - wR1.step_cost - q) := by
  refine ⟨admitPhase_trim_and_charge.1 ⟨1, none⟩ [wc1, wc2] (by decide),
          admitPhase_trim_and_charge.2.1 ⟨1/1000, none⟩ [wc1, wc2] (by decide) (by decide),
          admitPhase_trim_and_charge.2.2.1 wEnv "t" wStep wSt0 wR1
            ((round1 wEnv "t" wStep wSt0).2) (by rfl), ?_⟩
  obtain ⟨q, hq, _⟩ := admitPhase_trim_and_charge.2.2.2 wEnv "t" 0 wStep wSt0 wR1
    ((round1 wEnv "t" wStep wSt0).2) wStf ((runStep wEnv "t" 0 wStep wSt0).2)
    (by rfl) (by rfl)
  exact ⟨q, hq⟩

/-- Witness for C3: in the concrete witness run the escalation round
replaced the chosen candidate, yet the recorded trace keeps the first-round
candidate list and judge index. -/
theorem trace_records_first_round_witness :
    ∃ tr, wStf.traces = wSt0.traces ++ [tr] ∧ tr.chosen_models = wR1.names ∧
      tr.candidates = wR1.cand ∧ tr.chosen_idx = wR1.j_idx := by
  obtain ⟨tr, h⟩ := (trace_records_first_round wEnv "t" 0 wStep wSt0 wR1
    ((round1 wEnv "t" wStep wSt0).2) (by rfl)).1 wStf
    ((runStep wEnv "t" 0 wStep wSt0).2) (by rfl)
  exact ⟨tr, h.1, h.2.2.2.1, h.2.2.2.2.1, h.2.2.2.2.2.1⟩

/-- Witness for C8: with an always-failing worker the whole run returns
the worker's error, and with a worker that fails only on the
escalation-round improve prompt the run aborts from inside the escalation
round — in both cases no `RunTrace` value exists. -/
theorem failures_abort_run_witness :
    (Orchestrator.run wEnvFail "t" wPlan wRouter).1
      = Except.error (OrchErr.workerFailure "boom") ∧
    (Orchestrator.run wEnvEscFail "t" wPlan wRouter).1
      = Except.error (OrchErr.workerFailure "boom2") := by
  constructor
  · exact failures_abort_run.2.2.2.2.2.2.1 wEnvFail "t" wPlan wRouter
      (OrchErr.workerFailure "boom") (by rfl)
  · have hstep : (runStep wEnvEscFail "t" 0 wStep wSt0).1
        = Except.error (OrchErr.workerFailure "boom2") :=
      failures_abort_run.2.2.2.2.2.2.2.1 wEnvEscFail "t" 0 wStep wSt0 wR1b
        ((round1 wEnvEscFail "t" wStep wSt0).2) (OrchErr.workerFailure "boom2")
        (by rfl) ⟨by decide, by decide, by decide⟩ (by rfl)
    have hsteps : (runSteps wEnvEscFail "t" (wStep :: []) 0 wSt0).1
        = Except.error (OrchErr.workerFailure "boom2") :=
      failures_abort_run.2.2.2.2.2.1 wEnvEscFail "t" wStep [] 0 wSt0
        (OrchErr.workerFailure "boom2") hstep
    exact failures_abort_run.2.2.2.2.2.2.1 wEnvEscFail "t" wPlan wRouter
      (OrchErr.workerFailure "boom2") hsteps

end
